import Mathlib

/-!
Shallow embedding of the digital-rain transition engine of `cli-play`
(`internal/rain/grid.go`, the rain column and gradient files of
`internal/rain`, and `internal/transition`), together with theorems
checking the specification's claims against it.

Modelling conventions:
* Go `float64` values (speeds, accumulators, head positions, `dt`) are
  embedded as `ℚ`; every property below is independent of rounding.
* Go `int` is embedded as `ℤ` where negatives can occur (coordinates,
  head rows) and as `ℕ` for sizes.  Go's truncating integer division is
  `Int.tdiv` (`goDiv`), float-to-int conversion is `goTrunc` (truncation toward
  zero), exactly as in Go.
* Randomness (`rand.Float64`, `rand.IntN`, glyph pool draws, the
  Fisher-Yates shuffle) is made explicit: each random draw is read from
  an oracle function supplied as an argument, indexed by the call site.
  `rand.IntN n` for `n > 0` is embedded as `r % n` (every value of
  `[0,n)` is reachable); `rand.IntN n` for `n ≤ 0` panics in Go, which
  the checked variant `randIntN?` models by returning `none`.
* Wall-clock time is an input: the per-tick `dt` (the Go code's
  `now.Sub(m.lastTick)`) is a parameter of the tick function, and the
  `lastTick` field is subsumed by it.
-/

/-- CellState from `internal/rain/grid.go`: what a grid cell is doing. -/
inductive CellState where
  | empty
  | splash
  | rainC
  | dissolving
  | deposited
deriving DecidableEq, Repr

/-- Cell from `internal/rain/grid.go`: one position in the terminal grid.
Go zero value: `Char` = rune 0, `State` = CellEmpty, `FadeStep` = 0,
`TargetChar` = rune 0. -/
structure Cell where
  ch : Char
  state : CellState
  fadeStep : ℕ
  targetCh : Char
deriving DecidableEq, Repr

instance : Inhabited Cell := ⟨⟨Char.ofNat 0, .empty, 0, Char.ofNat 0⟩⟩

/-- CellGrid from `internal/rain/grid.go`, indexed `cells[y][x]`. -/
structure CellGrid where
  width : ℕ
  height : ℕ
  cells : List (List Cell)
deriving DecidableEq, Repr

/-- allocCells: a `height × width` buffer of empty cells. -/
def allocCells (width height : ℕ) : List (List Cell) :=
  List.replicate height (List.replicate width default)

/-- NewCellGrid: every cell starts as CellEmpty. -/
def NewCellGrid (width height : ℕ) : CellGrid :=
  ⟨width, height, allocCells width height⟩

/-- CellGrid.Get: out-of-bounds coordinates return the zero-value cell. -/
def CellGrid.get (g : CellGrid) (x y : ℤ) : Cell :=
  if x < 0 ∨ (g.width : ℤ) ≤ x ∨ y < 0 ∨ (g.height : ℤ) ≤ y then default
  else (g.cells.getD y.toNat []).getD x.toNat default

/-- CellGrid.Set: out-of-bounds coordinates are silently ignored. -/
def CellGrid.set (g : CellGrid) (x y : ℤ) (c : Cell) : CellGrid :=
  if x < 0 ∨ (g.width : ℤ) ≤ x ∨ y < 0 ∨ (g.height : ℤ) ≤ y then g
  else { g with cells := g.cells.set y.toNat ((g.cells.getD y.toNat []).set x.toNat c) }

/-- CellGrid.Resize: reallocates to the new dimensions keeping the cells of
the overlapping rectangle (the Go code allocates fresh rows and row-copies
the prefix of length `min w width` for the first `min h height` rows; this
functional form produces exactly that buffer). -/
def CellGrid.resize (g : CellGrid) (w h : ℕ) : CellGrid :=
  { width := w, height := h,
    cells := (List.range h).map fun y => (List.range w).map fun x =>
      if x < min w g.width ∧ y < min h g.height then g.get x y else default }

/-- goTrunc is Go's float-to-int conversion: truncation toward zero. -/
def goTrunc (q : ℚ) : ℤ :=
  if 0 ≤ q then ⌊q⌋ else -⌊-q⌋

/-- goDiv is Go's `int` division: truncation toward zero. -/
def goDiv (a b : ℤ) : ℤ := Int.tdiv a b

/-- TrailChar from the rain-column file: one visible trail character. -/
structure TrailChar where
  y : ℤ
  ch : Char
deriving DecidableEq, Repr

/-- Column from the rain-column file: one falling trail. -/
structure Column where
  x : ℤ
  trail : List TrailChar
  maxTrailLen : ℕ
  speed : ℚ
  accumulator : ℚ
  headY : ℚ
  draining : Bool
  mutationRate : ℚ
deriving DecidableEq, Repr

/-- randIntN? models `rand.IntN`: defined only for a positive argument;
Go panics on `n ≤ 0`, which is modelled as `none`. -/
def randIntN? (r : ℕ) (n : ℤ) : Option ℕ :=
  if 0 < n then some (r % n.toNat) else none

/-- randIntN is the total variant used inside the total simulation; it
agrees with `randIntN?` whenever that one is defined (non-panicking). -/
def randIntN (r : ℕ) (n : ℤ) : ℕ :=
  (randIntN? r n).getD 0

/-- SpawnColumn: a fresh column at `x`.  `r1` feeds `rand.IntN(half+1)`,
`r2` feeds `rand.IntN(maxTrail-minTrail+1)`, `rs` is the `rand.Float64()`
draw for the speed.  The trail-length argument is computed in `ℤ` exactly
as the Go `int` expression `maxTrail - minTrail + 1`. -/
def SpawnColumn (x : ℤ) (screenHeight : ℕ) (r1 r2 : ℕ) (rs : ℚ) : Column :=
  let half := screenHeight / 2
  let startY : ℤ := -(randIntN r1 ((half : ℤ) + 1) : ℤ)
  let minTrail := max 4 (screenHeight / 3)
  let maxTrail := screenHeight
  let trailLen := minTrail + randIntN r2 ((maxTrail : ℤ) - (minTrail : ℤ) + 1)
  let speed := 8 + rs * 17
  { x := x, trail := [], maxTrailLen := trailLen, speed := speed,
    accumulator := 0, headY := (startY : ℚ), draining := false,
    mutationRate := mkRat 1 50 }

/-- SpawnColumnChecked is `SpawnColumn` with the `rand.IntN` panic made
explicit: it returns `none` exactly when one of the two `rand.IntN`
arguments is non-positive, which makes the Go code panic. -/
def SpawnColumnChecked (x : ℤ) (screenHeight : ℕ) (r1 r2 : ℕ) (rs : ℚ) : Option Column :=
  let half := screenHeight / 2
  let minTrail := max 4 (screenHeight / 3)
  let maxTrail := screenHeight
  match randIntN? r1 ((half : ℤ) + 1), randIntN? r2 ((maxTrail : ℤ) - (minTrail : ℤ) + 1) with
  | some a, some b =>
      some { x := x, trail := [], maxTrailLen := minTrail + b, speed := 8 + rs * 17,
             accumulator := 0, headY := (-(a : ℤ) : ℚ), draining := false,
             mutationRate := mkRat 1 50 }
  | _, _ => none

/-- Column.advance: grows the trail downward while the accumulator has
whole steps; sets `draining` and stops once the head passes the bottom.
`g n` is the `pool.Random()` draw of the `n`-th append of this call. -/
def Column.advance (c : Column) (screenHeight : ℕ) (g : ℕ → Char) (n : ℕ) : Column :=
  if h1 : 1 ≤ c.accumulator then
    let y := goTrunc c.headY
    let tr := if 0 ≤ y ∧ y < (screenHeight : ℤ) then c.trail ++ [⟨y, g n⟩] else c.trail
    let c3 : Column := { c with accumulator := c.accumulator - 1, trail := tr,
                                headY := c.headY + 1 }
    if (screenHeight : ℤ) ≤ goTrunc c3.headY then { c3 with draining := true }
    else Column.advance c3 screenHeight g (n + 1)
  else c
termination_by (⌈c.accumulator⌉).toNat
decreasing_by
  show (⌈c.accumulator - 1⌉).toNat < (⌈c.accumulator⌉).toNat
  have h2 : (1 : ℤ) ≤ ⌈c.accumulator⌉ := by
    have := Int.ceil_le_ceil (α := ℚ) h1
    simpa using this
  have h3 : ⌈c.accumulator - 1⌉ = ⌈c.accumulator⌉ - 1 := by
    have h4 : (1 : ℚ) = ((1 : ℤ) : ℚ) := by norm_num
    rw [h4, Int.ceil_sub_int]
  omega

/-- Column.drain: removes one oldest (front) trail entry per whole step. -/
def Column.drain (c : Column) : Column :=
  drainGo c.accumulator c.trail c
where
  drainGo (acc : ℚ) (tr : List TrailChar) (c : Column) : Column :=
    match tr with
    | [] => { c with accumulator := acc, trail := [] }
    | tc :: rest =>
        if 1 ≤ acc then drainGo (acc - 1) rest c
        else { c with accumulator := acc, trail := tc :: rest }

/-- Column.trimTrail: drops the oldest characters past `maxTrailLen`. -/
def Column.trimTrail (c : Column) : Column :=
  if c.maxTrailLen < c.trail.length then
    { c with trail := c.trail.drop (c.trail.length - c.maxTrailLen) }
  else c

/-- Column.mutate: each trail character whose `rand.Float64()` roll
(`mr i`) is below `mutationRate` is replaced by a fresh glyph (`mg i`). -/
def Column.mutate (c : Column) (mr : ℕ → ℚ) (mg : ℕ → Char) : Column :=
  { c with trail := c.trail.enum.map fun itc =>
      if mr itc.1 < c.mutationRate then { itc.2 with ch := mg itc.1 } else itc.2 }

/-- Column.Update: accumulate speed, then drain or advance-trim-mutate. -/
def Column.update (c : Column) (dt : ℚ) (screenHeight : ℕ)
    (g : ℕ → Char) (mr : ℕ → ℚ) (mg : ℕ → Char) : Column :=
  let c0 : Column := { c with accumulator := c.accumulator + c.speed * dt }
  if c0.draining then c0.drain
  else ((c0.advance screenHeight g 0).trimTrail).mutate mr mg

/-- Column.IsDead: drained completely. -/
def Column.isDead (c : Column) : Bool :=
  c.draining && c.trail.isEmpty

/-- RGB is a color as its three channels; the Go code renders it as the
hex string `#RRGGBB` (an injective formatting, so color claims are stated
on the channels). -/
structure RGB where
  r : ℕ
  g : ℕ
  b : ℕ
deriving DecidableEq, Repr

/-- ColorStop from the gradient file: a gradient stop. -/
structure ColorStop where
  pos : ℚ
  r : ℕ
  g : ℕ
  b : ℕ
deriving DecidableEq, Repr

/-- trailStops: the 4-stop gradient from head (brightest) to tail. -/
def trailStops : List ColorStop :=
  [⟨0, 0xDC, 0xFF, 0xDC⟩, ⟨3/20, 0x00, 0xE6, 0x32⟩,
   ⟨1/2, 0x00, 0x96, 0x1E⟩, ⟨1, 0x00, 0x3C, 0x0F⟩]

/-- lerp8: Go's `uint8(float64(a)*(1-t) + float64(b)*t)`; the conversion
truncates, and the value is non-negative for the stops used. -/
def lerp8 (a b : ℕ) (t : ℚ) : ℕ :=
  (⌊(a : ℚ) * (1 - t) + (b : ℚ) * t⌋).toNat

/-- findSegGo: the Go loop that scans consecutive stop pairs for the first
bracketing pair; the zero-value pair results when nothing matches. -/
def findSegGo (p : ℚ) : List (ColorStop × ColorStop) → ColorStop × ColorStop
  | [] => (⟨0, 0, 0, 0⟩, ⟨0, 0, 0, 0⟩)
  | (lo, hi) :: rest =>
      if lo.pos ≤ p ∧ p ≤ hi.pos then (lo, hi) else findSegGo p rest

/-- findSeg: the surrounding stops of a position, as in TrailColor's loop. -/
def findSeg (p : ℚ) : ColorStop × ColorStop :=
  findSegGo p (trailStops.zip trailStops.tail)

/-- TrailColor: interpolated trail color for a position; 0 is the head,
1 the tail, out-of-range positions use the endpoint colors. -/
def TrailColor (position : ℚ) : RGB :=
  if position ≤ 0 then ⟨0xDC, 0xFF, 0xDC⟩
  else if 1 ≤ position then ⟨0x00, 0x3C, 0x0F⟩
  else
    let s := findSeg position
    let lo := s.1
    let hi := s.2
    let span := hi.pos - lo.pos
    if span = 0 then ⟨lo.r, lo.g, lo.b⟩
    else
      let t := (position - lo.pos) / span
      ⟨lerp8 lo.r hi.r t, lerp8 lo.g hi.g t, lerp8 lo.b hi.b t⟩

/-- Phase from `internal/transition`: the stage of the animation. -/
inductive Phase where
  | dissolve
  | reveal
  | drain
  | done
deriving DecidableEq, Repr

/-- SpawnRate: base probability per empty column per frame. -/
def SpawnRate : ℚ := mkRat 3 20

/-- CellPos from `internal/transition`: a pre-computed text position. -/
structure CellPos where
  x : ℤ
  y : ℤ
  ch : Char
deriving DecidableEq, Repr

instance : Inhabited CellPos := ⟨⟨0, 0, Char.ofNat 0⟩⟩

/-- runeWidth: 2 for wide characters, 1 otherwise, with the Go switch's
case order. -/
def runeWidth (ch : Char) : ℕ :=
  if 0x2580 ≤ ch.toNat ∧ ch.toNat ≤ 0x259F then 1
  else if 0x2500 ≤ ch.toNat ∧ ch.toNat ≤ 0x257F then 1
  else if 0xFF01 ≤ ch.toNat ∧ ch.toNat ≤ 0xFF60 then 2
  else if 0xFF61 ≤ ch.toNat ∧ ch.toNat ≤ 0xFFDC then 1
  else if 0x2E80 ≤ ch.toNat ∧ ch.toNat ≤ 0x9FFF then 2
  else 1

/-- splitOnNl embeds Go's `strings.Split(text, "\n")` on the rune list:
the separator is the single rune `\n`, so splitting the rune list is the
same split; an empty text yields one empty line, as in Go. -/
def splitOnNl : List Char → List (List Char)
  | [] => [[]]
  | c :: rest =>
      match splitOnNl rest with
      | [] => [[c]]
      | a :: as => if c = '\n' then [] :: a :: as else (c :: a) :: as

/-- visualWidth: display width of one line of runes. -/
def visualWidth (s : List Char) : ℕ :=
  s.foldl (fun a c => a + runeWidth c) 0

/-- lineCellsAux: the inner loop of computePositions over one line's
runes: non-space runes are placed at the current column cursor, every
rune advances the cursor by its width. -/
def lineCellsAux (offX y : ℤ) : ℕ → List Char → List CellPos
  | _, [] => []
  | col, ch :: rest =>
      if ch = ' ' then lineCellsAux offX y (col + runeWidth ch) rest
      else ⟨offX + (col : ℤ), y, ch⟩ :: lineCellsAux offX y (col + runeWidth ch) rest

/-- computePositions: text parsed into centered screen coordinates. -/
def computePositions (text : String) (width height : ℕ) : List CellPos :=
  let lines := splitOnNl text.data
  let maxW := lines.foldl (fun acc l => max acc (visualWidth l)) 0
  let offsetX : ℤ := goDiv ((width : ℤ) - (maxW : ℤ)) 2
  let offsetY : ℤ := goDiv ((height : ℤ) - (lines.length : ℤ)) 2
  (lines.enum.map fun rl => lineCellsAux offsetX (offsetY + (rl.1 : ℤ)) 0 rl.2).flatten

/-- swapL: the in-place swap callback handed to `rand.Shuffle`. -/
def swapL (l : List ℕ) (i j : ℕ) : List ℕ :=
  (l.set i (l.getD j 0)).set j (l.getD i 0)

/-- shuffleAux: `rand.Shuffle`'s Fisher-Yates loop, `i` descending and
`o i % (i+1)` standing for the `rand.IntN(i+1)` draw. -/
def shuffleAux (o : ℕ → ℕ) : ℕ → List ℕ → List ℕ
  | 0, l => l
  | k + 1, l => shuffleAux o k (swapL l (k + 1) (o (k + 1) % (k + 2)))

/-- shuffle: `rand.Shuffle` over a list, draws supplied by `o`. -/
def shuffle (o : ℕ → ℕ) (l : List ℕ) : List ℕ :=
  shuffleAux o (l.length - 1) l

/-- TickRand: the random draws consumed during one tick, indexed by call
site (column index / trail index / spawn x) instead of the sequential
global generator — a re-parametrization of the same nondeterminism. -/
structure TickRand where
  advGlyph : ℕ → ℕ → Char
  mutRoll : ℕ → ℕ → ℚ
  mutGlyph : ℕ → ℕ → Char
  spawnRoll : ℕ → ℚ
  spawnR1 : ℕ → ℕ
  spawnR2 : ℕ → ℕ
  spawnSpeed : ℕ → ℚ

/-- Model from `internal/transition`: the transition controller state.
The Go `lastTick` field is subsumed by the per-tick `dt` input and the
`charPool` by the glyph oracles. -/
structure Model where
  width : ℕ
  height : ℕ
  phase : Phase
  grid : CellGrid
  columns : List Column
  splashCells : List CellPos
  menuCells : List CellPos
  dissolvedCount : ℕ
  splashLookup : Finset (ℤ × ℤ)
  depositedCount : ℕ
  depositOrder : List ℕ
  phaseElapsed : ℚ
  draining : Bool
  done : Bool

/-- New: construct the transition model (splash text painted, lookup set
and shuffled deposit order prepared, no columns). -/
def New (width height : ℕ) (splashText menuText : String) (shuf : ℕ → ℕ) : Model :=
  let splashCells := computePositions splashText width height
  let menuCells := computePositions menuText width height
  let lookup : Finset (ℤ × ℤ) := splashCells.foldl (fun s cp => insert (cp.x, cp.y) s) ∅
  let order := shuffle shuf (List.range menuCells.length)
  let grid := splashCells.foldl
    (fun g cp => g.set cp.x cp.y ⟨cp.ch, .splash, 0, Char.ofNat 0⟩)
    (NewCellGrid width height)
  { width := width, height := height, phase := .dissolve, grid := grid, columns := [],
    splashCells := splashCells, menuCells := menuCells, dissolvedCount := 0,
    splashLookup := lookup, depositedCount := 0, depositOrder := order,
    phaseElapsed := 0, draining := false, done := false }

/-- updateColumns: advance every live column by dt. -/
def updateColumns (m : Model) (dt : ℚ) (r : TickRand) : Model :=
  { m with columns := m.columns.mapIdx fun i c =>
      c.update dt m.height (r.advGlyph i) (r.mutRoll i) (r.mutGlyph i) }

/-- removeDeadColumns: drop fully-drained columns. -/
def removeDeadColumns (m : Model) : Model :=
  { m with columns := m.columns.filter fun c => !c.isDead }

/-- spawnColumns: Bernoulli trial per unoccupied x position. -/
def spawnColumns (m : Model) (r : TickRand) : Model :=
  let occupied := m.columns.map (·.x)
  { m with columns := m.columns ++ ((List.range m.width).filterMap fun (x : ℕ) =>
      if (x : ℤ) ∉ occupied ∧ r.spawnRoll x < SpawnRate then
        some (SpawnColumn (x : ℤ) m.height (r.spawnR1 x) (r.spawnR2 x) (r.spawnSpeed x))
      else none) }

/-- spawnColumnsChecked: the same trials but through `SpawnColumnChecked`,
so a spawn that would make Go panic surfaces as `none`. -/
def spawnColumnsChecked (m : Model) (r : TickRand) : Option (List Column) :=
  let occupied := m.columns.map (·.x)
  (List.range m.width).foldl
    (fun acc (x : ℕ) =>
      match acc with
      | none => none
      | some cs =>
          if (x : ℤ) ∉ occupied ∧ r.spawnRoll x < SpawnRate then
            match SpawnColumnChecked (x : ℤ) m.height (r.spawnR1 x) (r.spawnR2 x)
                (r.spawnSpeed x) with
            | some c => some (cs ++ [c])
            | none => none
          else some cs)
    (some m.columns)

/-- clearRainCell: the body of applyRainToGrid's clearing pass on one
cell: Rain and Dissolving cells are reset to the empty cell. -/
def clearRainCell (c : Cell) : Cell :=
  if c.state = .rainC ∨ c.state = .dissolving then default else c

/-- clearRainCells: the clearing double loop of applyRainToGrid (the Go
loop Gets and Sets each in-bounds coordinate, i.e. rewrites every stored
cell). -/
def clearRainCells (g : CellGrid) : CellGrid :=
  { g with cells := g.cells.map fun row => row.map clearRainCell }

/-- writeTrailChar: write one trail character (index `itc.1` from the
tail) to the grid, skipping Deposited cells and dimming by fade. -/
def writeTrailChar (x : ℤ) (trailLen : ℕ) (g : CellGrid) (itc : ℕ × TrailChar) : CellGrid :=
  let existing := g.get x itc.2.y
  if existing.state = .deposited then g
  else
    let posFromHead := trailLen - 1 - itc.1
    let fadePct := if 1 < trailLen then (posFromHead * 100) / (trailLen - 1) else 0
    let st := if existing.state = .splash then CellState.dissolving else CellState.rainC
    g.set x itc.2.y ⟨itc.2.ch, st, fadePct, Char.ofNat 0⟩

/-- writeColumn: write one column's whole trail. -/
def writeColumn (g : CellGrid) (col : Column) : CellGrid :=
  col.trail.enum.foldl (writeTrailChar col.x col.trail.length) g

/-- applyRainToGrid: clear previous rain cells, then write the current
trail characters, never overwriting Deposited cells. -/
def applyRainToGrid (m : Model) : Model :=
  { m with grid := m.columns.foldl writeColumn (clearRainCells m.grid) }

/-- dissolveHit: one trail cell checked against the splash lookup set. -/
def dissolveHit (x : ℤ) (acc : Finset (ℤ × ℤ) × ℕ) (tc : TrailChar) :
    Finset (ℤ × ℤ) × ℕ :=
  if (x, tc.y) ∈ acc.1 then (acc.1.erase (x, tc.y), acc.2 + 1) else acc

/-- dissolve: mark splash cells as dissolved where rain covers them. -/
def dissolve (m : Model) : Model :=
  let p := m.columns.foldl (fun acc col => col.trail.foldl (dissolveHit col.x) acc)
    (m.splashLookup, m.dissolvedCount)
  { m with splashLookup := p.1, dissolvedCount := p.2 }

/-- revealLoop: deposit up to `k` remaining menu characters in the
pre-shuffled order. -/
def revealLoop : ℕ → Model → Model
  | 0, m => m
  | k + 1, m =>
      if m.depositedCount < m.menuCells.length then
        let idx := m.depositOrder.getD m.depositedCount 0
        let cp := m.menuCells.getD idx default
        revealLoop k
          { m with grid := m.grid.set cp.x cp.y ⟨cp.ch, .deposited, 0, cp.ch⟩,
                   depositedCount := m.depositedCount + 1 }
      else m

/-- reveal: deposit menu characters at a steady rate. -/
def reveal (m : Model) : Model :=
  if m.menuCells.length = 0 then m
  else revealLoop (max 1 (m.menuCells.length / 60)) m

/-- Cmd distinguishes the commands the Update function can return: no
command, quit the host program, or schedule the next tick. -/
inductive Cmd where
  | idle
  | quit
  | tickCmd
deriving DecidableEq, Repr

/-- Msg: the three message kinds the transition model handles.  A tick
message carries the wall-clock `dt` since the previous tick and the
random draws consumed during the tick. -/
inductive Msg where
  | key (s : String)
  | tick (dtRaw : ℚ) (r : TickRand)
  | resize (w h : ℕ)

/-- preTick: the phase-independent first half of Model.tick — advance the
phase timer, update all columns, drop the dead ones, spawn unless the
global drain flag is set, and repaint the rain onto the grid. -/
def preTick (m : Model) (dt : ℚ) (r : TickRand) : Model :=
  let m1 := { m with phaseElapsed := m.phaseElapsed + dt }
  let m2 := updateColumns m1 dt r
  let m3 := removeDeadColumns m2
  let m4 := if m3.draining then m3 else spawnColumns m3 r
  applyRainToGrid m4

/-- tickCore: the body of Model.tick after the wall-clock delta has been
computed and capped — the shared pipeline followed by the phase switch. -/
def tickCore (m : Model) (dt : ℚ) (r : TickRand) : Model × Cmd :=
  let m5 := preTick m dt r
  match m5.phase with
  | .dissolve =>
      let m6 := dissolve m5
      if m6.splashCells.length ≤ m6.dissolvedCount then
        ({ m6 with phase := .reveal, phaseElapsed := 0 }, .tickCmd)
      else (m6, .tickCmd)
  | .reveal =>
      let m6 := reveal m5
      if m6.menuCells.length ≤ m6.depositedCount then
        ({ m6 with phase := .drain, draining := true, phaseElapsed := 0 }, .tickCmd)
      else (m6, .tickCmd)
  | .drain =>
      if m5.columns.isEmpty then ({ m5 with phase := .done, done := true }, .idle)
      else (m5, .tickCmd)
  | .done => ({ m5 with done := true }, .idle)

/-- tickFn: the per-frame update (Model.tick in the source): cap the
wall-clock delta at 0.1 s and run the tick body. -/
def tickFn (m : Model) (dtRaw : ℚ) (r : TickRand) : Model × Cmd :=
  tickCore m (if mkRat 1 10 < dtRaw then mkRat 1 10 else dtRaw) r

/-- update: Model.Update — resize updates dimensions only, ctrl+c is
passed to the host as quit, any other key skips to Done, ticks run the
frame update. -/
def update (m : Model) (msg : Msg) : Model × Cmd :=
  match msg with
  | .resize w h =>
      ({ m with width := w, height := h, grid := m.grid.resize w h }, .idle)
  | .key s =>
      if s = "ctrl+c" then (m, .quit)
      else ({ m with done := true, phase := .done }, .idle)
  | .tick dtRaw r => tickFn m dtRaw r

/-- isDone: Model.Done — the completion flag the host observes. -/
def Model.isDone (m : Model) : Bool := m.done

/-- runTicks: drive the model with a sequence of tick events only. -/
def runTicks (m : Model) (ticks : List (ℚ × TickRand)) : Model :=
  ticks.foldl (fun m p => (tickFn m p.1 p.2).1) m

/-- phaseIdx: the forward order Dissolve, Reveal, Drain, Done. -/
def phaseIdx : Phase → ℕ
  | .dissolve => 0
  | .reveal => 1
  | .drain => 2
  | .done => 3

/-- posOf: the coordinate of a precomputed text cell. -/
def posOf (cp : CellPos) : ℤ × ℤ := (cp.x, cp.y)

/-- pendingIdx: the not-yet-deposited suffix of the deposit order. -/
def pendingIdx (m : Model) : List ℕ :=
  m.depositOrder.drop m.depositedCount

/-- pendingPos: the coordinates still awaiting a deposit. -/
def pendingPos (m : Model) : List (ℤ × ℤ) :=
  (pendingIdx m).map fun i => posOf (m.menuCells.getD i default)

/-- DepositInv: the run invariant behind the Deposited-cell claim — the
deposit order is a well-formed permutation tail (in-range indices, its
remaining coordinates pairwise distinct) and no remaining deposit target
is already Deposited on the grid. -/
def DepositInv (m : Model) : Prop :=
  m.depositOrder.length = m.menuCells.length ∧
  (∀ i ∈ pendingIdx m, i < m.menuCells.length) ∧
  (pendingPos m).Nodup ∧
  ∀ p ∈ pendingPos m, (m.grid.get p.1 p.2).state ≠ CellState.deposited

/-- Reachable: the states a controller can actually be in — a freshly
constructed model, or any reachable model after one more event. -/
inductive Reachable : Model → Prop where
  | init (w h : ℕ) (s t : String) (shuf : ℕ → ℕ) : Reachable (New w h s t shuf)
  | step (m : Model) (msg : Msg) : Reachable m → Reachable (update m msg).1

/-- isResize distinguishes resize messages from key and tick messages. -/
def Msg.isResize : Msg → Bool
  | .resize _ _ => true
  | _ => false

/-- oobPos: a coordinate outside the `[0,w) × [0,h)` rectangle. -/
def oobPos (w h : ℕ) (p : ℤ × ℤ) : Prop :=
  p.1 < 0 ∨ (w : ℤ) ≤ p.1 ∨ p.2 < 0 ∨ (h : ℤ) ≤ p.2

/-- colWF: a column as produced by spawnColumns — its x on the grid and
every trail row on screen. -/
def colWF (w h : ℕ) (c : Column) : Prop :=
  0 ≤ c.x ∧ c.x < (w : ℤ) ∧ ∀ tc ∈ c.trail, 0 ≤ tc.y ∧ tc.y < (h : ℤ)

/-- StuckInv: the invariant of a tick-only run whose source text has the
off-grid coordinate `key`: the phase is still Dissolve, `key` is still
waiting in the lookup set, every column is on-grid, and the dissolved
counter plus the remaining lookup entries never exceed the source total. -/
def StuckInv (key : ℤ × ℤ) (m : Model) : Prop :=
  m.phase = .dissolve ∧ key ∈ m.splashLookup ∧ oobPos m.width m.height key ∧
  (∀ c ∈ m.columns, colWF m.width m.height c) ∧
  m.dissolvedCount + m.splashLookup.card ≤ m.splashCells.length

/-- noSpawnRand: a concrete draw sequence on which no spawn trial fires
and no mutation trial fires. -/
def noSpawnRand : TickRand :=
  { advGlyph := fun _ _ => 'X', mutRoll := fun _ _ => 1, mutGlyph := fun _ _ => 'X',
    spawnRoll := fun _ => 1, spawnR1 := fun _ => 0, spawnR2 := fun _ => 0,
    spawnSpeed := fun _ => 0 }

/-- allSpawnRand: a concrete draw sequence on which every spawn trial
fires. -/
def allSpawnRand : TickRand :=
  { noSpawnRand with spawnRoll := fun _ => 0 }

/-- skipModel: a reachable state in phase Done — a fresh 2×2 controller
skipped by pressing the q key. -/
def skipModel : Model :=
  (update (New 2 2 "A" "B" fun _ => 0) (.key "q")).1

/-- drainColEx: a concrete draining column with one trail character. -/
def drainColEx : Column :=
  ⟨0, [⟨0, 'A'⟩], 5, 10, 0, 3, true, mkRat 1 50⟩

/-- postAdv: the advance-then-trim stage of a non-draining column update
(the trail to which mutation is then applied). -/
def postAdv (c : Column) (dt : ℚ) (h : ℕ) (g : ℕ → Char) : Column :=
  (Column.advance { c with accumulator := c.accumulator + c.speed * dt } h g 0).trimTrail

/-- depositStep: one iteration of the reveal loop — deposit the next
menu character in the pre-shuffled order. -/
def depositStep (m : Model) : Model :=
  let idx := m.depositOrder.getD m.depositedCount 0
  let cp := m.menuCells.getD idx default
  { m with grid := m.grid.set cp.x cp.y ⟨cp.ch, .deposited, 0, cp.ch⟩,
           depositedCount := m.depositedCount + 1 }

/-- depModel: a reachable state holding a Deposited cell — a 1×1 run
with empty source text and target text B after two ticks (the first tick
leaves Dissolve, the second deposits the B and leaves Reveal). -/
def depModel : Model :=
  (update (update (New 1 1 "" "B" fun _ => 0) (.tick (mkRat 1 30) noSpawnRand)).1
    (.tick (mkRat 1 30) noSpawnRand)).1

/-- rgbLe: channel-wise comparison of colors (used to state that the
trail gradient only gets dimmer). -/
def rgbLe (u v : RGB) : Prop :=
  u.r ≤ v.r ∧ u.g ≤ v.g ∧ u.b ≤ v.b

/-- C7: for every grid and every coordinate outside the bounds, Get
returns the default empty cell and Set leaves the grid unchanged. -/
theorem grid_oob_get_default_set_noop (g : CellGrid) (x y : ℤ) (c : Cell)
    (h : x < 0 ∨ (g.width : ℤ) ≤ x ∨ y < 0 ∨ (g.height : ℤ) ≤ y) :
    g.get x y = default ∧ g.set x y c = g := by
  constructor
  · unfold CellGrid.get
    rw [if_pos h]
  · unfold CellGrid.set
    rw [if_pos h]

/-- Witness for C7 at the concrete grid 2×2 and coordinate (-1, 0). -/
theorem grid_oob_get_default_set_noop_witness :
    ((-1 : ℤ) < 0 ∨ ((NewCellGrid 2 2).width : ℤ) ≤ -1 ∨ (0 : ℤ) < 0 ∨
      ((NewCellGrid 2 2).height : ℤ) ≤ 0) ∧
    (NewCellGrid 2 2).get (-1) 0 = default ∧
    (NewCellGrid 2 2).set (-1) 0 default = NewCellGrid 2 2 :=
  ⟨by decide, grid_oob_get_default_set_noop (NewCellGrid 2 2) (-1) 0 default (by decide)⟩

/-- C1: delivering any key other than ctrl+c while not yet Done sets the
phase to Done and makes isDone true on that same call, whatever the
counters, columns and phase are. -/
theorem key_skips_to_done (m : Model) (s : String)
    (hs : s ≠ "ctrl+c") (hp : m.phase ≠ Phase.done) :
    (update m (.key s)).1.phase = Phase.done ∧ (update m (.key s)).1.isDone = true := by
  simp [update, hs, Model.isDone]

/-- Witness for C1: the fresh 3×3 controller and the q key. -/
theorem key_skips_to_done_witness :
    "q" ≠ "ctrl+c" ∧ (New 3 3 "A" "B" fun _ => 0).phase ≠ Phase.done ∧
    ((update (New 3 3 "A" "B" fun _ => 0) (.key "q")).1.phase = Phase.done ∧
     (update (New 3 3 "A" "B" fun _ => 0) (.key "q")).1.isDone = true) :=
  ⟨by decide, by simp [New], key_skips_to_done _ _ (by decide) (by simp [New])⟩

/-- Helper: preTick does not change the phase. -/
theorem preTick_phase (m : Model) (dt : ℚ) (r : TickRand) :
    (preTick m dt r).phase = m.phase := by
  simp only [preTick]
  split <;> rfl

/-- Helper: preTick does not change the source-cell list. -/
theorem preTick_splashCells (m : Model) (dt : ℚ) (r : TickRand) :
    (preTick m dt r).splashCells = m.splashCells := by
  simp only [preTick]
  split <;> rfl

/-- Helper: preTick does not change the target-cell list. -/
theorem preTick_menuCells (m : Model) (dt : ℚ) (r : TickRand) :
    (preTick m dt r).menuCells = m.menuCells := by
  simp only [preTick]
  split <;> rfl

/-- Helper: preTick does not change the dissolved counter. -/
theorem preTick_dissolvedCount (m : Model) (dt : ℚ) (r : TickRand) :
    (preTick m dt r).dissolvedCount = m.dissolvedCount := by
  simp only [preTick]
  split <;> rfl

/-- Helper: preTick does not change the deposited counter. -/
theorem preTick_depositedCount (m : Model) (dt : ℚ) (r : TickRand) :
    (preTick m dt r).depositedCount = m.depositedCount := by
  simp only [preTick]
  split <;> rfl

/-- Helper: preTick does not change the deposit order. -/
theorem preTick_depositOrder (m : Model) (dt : ℚ) (r : TickRand) :
    (preTick m dt r).depositOrder = m.depositOrder := by
  simp only [preTick]
  split <;> rfl

/-- Helper: preTick does not change the splash lookup set. -/
theorem preTick_splashLookup (m : Model) (dt : ℚ) (r : TickRand) :
    (preTick m dt r).splashLookup = m.splashLookup := by
  simp only [preTick]
  split <;> rfl

/-- Helper: preTick does not change the done flag. -/
theorem preTick_done (m : Model) (dt : ℚ) (r : TickRand) :
    (preTick m dt r).done = m.done := by
  simp only [preTick]
  split <;> rfl

/-- Helper: preTick does not change the global drain flag. -/
theorem preTick_draining (m : Model) (dt : ℚ) (r : TickRand) :
    (preTick m dt r).draining = m.draining := by
  simp only [preTick]
  split <;> rfl

/-- Helper: preTick does not change the width. -/
theorem preTick_width (m : Model) (dt : ℚ) (r : TickRand) :
    (preTick m dt r).width = m.width := by
  simp only [preTick]
  split <;> rfl

/-- Helper: preTick does not change the height. -/
theorem preTick_height (m : Model) (dt : ℚ) (r : TickRand) :
    (preTick m dt r).height = m.height := by
  simp only [preTick]
  split <;> rfl

/-- Helper: dissolve changes only the lookup set and dissolved counter. -/
theorem dissolve_fields (m : Model) :
    (dissolve m).phase = m.phase ∧ (dissolve m).splashCells = m.splashCells ∧
    (dissolve m).menuCells = m.menuCells ∧ (dissolve m).grid = m.grid ∧
    (dissolve m).depositedCount = m.depositedCount ∧
    (dissolve m).depositOrder = m.depositOrder ∧ (dissolve m).done = m.done ∧
    (dissolve m).draining = m.draining ∧ (dissolve m).columns = m.columns ∧
    (dissolve m).width = m.width ∧ (dissolve m).height = m.height :=
  ⟨rfl, rfl, rfl, rfl, rfl, rfl, rfl, rfl, rfl, rfl, rfl⟩

/-- Helper: revealLoop changes only the grid and the deposited counter. -/
theorem revealLoop_fields (k : ℕ) (m : Model) :
    (revealLoop k m).phase = m.phase ∧ (revealLoop k m).splashCells = m.splashCells ∧
    (revealLoop k m).menuCells = m.menuCells ∧
    (revealLoop k m).dissolvedCount = m.dissolvedCount ∧
    (revealLoop k m).depositOrder = m.depositOrder ∧
    (revealLoop k m).splashLookup = m.splashLookup ∧
    (revealLoop k m).done = m.done ∧ (revealLoop k m).draining = m.draining ∧
    (revealLoop k m).columns = m.columns ∧ (revealLoop k m).width = m.width ∧
    (revealLoop k m).height = m.height := by
  induction k generalizing m with
  | zero => exact ⟨rfl, rfl, rfl, rfl, rfl, rfl, rfl, rfl, rfl, rfl, rfl⟩
  | succ k ih =>
      unfold revealLoop
      split
      · exact ih _
      · exact ⟨rfl, rfl, rfl, rfl, rfl, rfl, rfl, rfl, rfl, rfl, rfl⟩

/-- Helper: reveal changes only the grid and the deposited counter. -/
theorem reveal_fields (m : Model) :
    (reveal m).phase = m.phase ∧ (reveal m).splashCells = m.splashCells ∧
    (reveal m).menuCells = m.menuCells ∧
    (reveal m).dissolvedCount = m.dissolvedCount ∧
    (reveal m).depositOrder = m.depositOrder ∧
    (reveal m).splashLookup = m.splashLookup ∧
    (reveal m).done = m.done ∧ (reveal m).draining = m.draining ∧
    (reveal m).columns = m.columns ∧ (reveal m).width = m.width ∧
    (reveal m).height = m.height := by
  unfold reveal
  split
  · exact ⟨rfl, rfl, rfl, rfl, rfl, rfl, rfl, rfl, rfl, rfl, rfl⟩
  · exact revealLoop_fields _ _

/-- Helper: the tick-body equation in phase Dissolve. -/
theorem tickCore_dissolve_eq (m : Model) (dt : ℚ) (r : TickRand)
    (h : m.phase = .dissolve) :
    tickCore m dt r =
      (let m6 := dissolve (preTick m dt r)
       if m6.splashCells.length ≤ m6.dissolvedCount then
         ({ m6 with phase := .reveal, phaseElapsed := 0 }, Cmd.tickCmd)
       else (m6, Cmd.tickCmd)) := by
  simp only [tickCore]
  split <;> rename_i heq <;> rw [preTick_phase, h] at heq
  all_goals exact absurd heq (by simp)

/-- Helper: the tick-body equation in phase Reveal. -/
theorem tickCore_reveal_eq (m : Model) (dt : ℚ) (r : TickRand)
    (h : m.phase = .reveal) :
    tickCore m dt r =
      (let m6 := reveal (preTick m dt r)
       if m6.menuCells.length ≤ m6.depositedCount then
         ({ m6 with phase := .drain, draining := true, phaseElapsed := 0 }, Cmd.tickCmd)
       else (m6, Cmd.tickCmd)) := by
  simp only [tickCore]
  split <;> rename_i heq <;> rw [preTick_phase, h] at heq
  all_goals exact absurd heq (by simp)

/-- Helper: the tick-body equation in phase Drain. -/
theorem tickCore_drain_eq (m : Model) (dt : ℚ) (r : TickRand)
    (h : m.phase = .drain) :
    tickCore m dt r =
      (let m5 := preTick m dt r
       if m5.columns.isEmpty then ({ m5 with phase := .done, done := true }, Cmd.idle)
       else (m5, Cmd.tickCmd)) := by
  simp only [tickCore]
  split <;> rename_i heq <;> rw [preTick_phase, h] at heq
  all_goals exact absurd heq (by simp)

/-- Helper: the tick-body equation in phase Done. -/
theorem tickCore_done_eq (m : Model) (dt : ℚ) (r : TickRand)
    (h : m.phase = .done) :
    tickCore m dt r = ({ preTick m dt r with done := true }, Cmd.idle) := by
  simp only [tickCore]
  split <;> rename_i heq <;> rw [preTick_phase, h] at heq
  all_goals exact absurd heq (by simp)

/-- C5: every event — tick, key or resize — moves the phase only forward
in the order Dissolve, Reveal, Drain, Done; it never steps back. -/
theorem phase_forward (m : Model) (msg : Msg) :
    phaseIdx m.phase ≤ phaseIdx (update m msg).1.phase := by
  rcases msg with s | ⟨dtRaw, r⟩ | ⟨w, h⟩
  · simp only [update]
    split
    · exact le_refl _
    · cases m.phase <;> simp [phaseIdx]
  · show phaseIdx m.phase ≤ phaseIdx (tickFn m dtRaw r).1.phase
    unfold tickFn
    generalize (if mkRat 1 10 < dtRaw then mkRat 1 10 else dtRaw) = dt
    cases hp : m.phase
    · rw [tickCore_dissolve_eq m dt r hp]
      dsimp only
      split
      · simp [phaseIdx]
      · dsimp only
        rw [(dissolve_fields _).1, preTick_phase, hp]
    · rw [tickCore_reveal_eq m dt r hp]
      dsimp only
      split
      · simp [phaseIdx]
      · dsimp only
        rw [(reveal_fields _).1, preTick_phase, hp]
    · rw [tickCore_drain_eq m dt r hp]
      dsimp only
      split
      · simp [phaseIdx]
      · dsimp only
        rw [preTick_phase, hp]
    · rw [tickCore_done_eq m dt r hp]
      dsimp only
      rw [preTick_phase, hp]
  · simp [update]

/-- Helper: preTick advances the phase timer by the (capped) delta. -/
theorem preTick_phaseElapsed (m : Model) (dt : ℚ) (r : TickRand) :
    (preTick m dt r).phaseElapsed = m.phaseElapsed + dt := by
  simp only [preTick]
  split <;> rfl

/-- C2 counterexample: in a reachable Done state (a fresh 1×5 controller
skipped by the q key), a further tick is not a no-op — the phase timer
advances and a fresh rain column is spawned.  Height 5 keeps both
`rand.IntN` arguments inside SpawnColumn positive (IntN(3) and IntN(2)),
so the spawn on this input is panic-free. -/
theorem done_tick_not_noop_cex :
    (update (New 1 5 "A" "B" fun _ => 0) (.key "q")).1.phase = Phase.done ∧
    (update (New 1 5 "A" "B" fun _ => 0) (.key "q")).1.phaseElapsed = 0 ∧
    (update (New 1 5 "A" "B" fun _ => 0) (.key "q")).1.columns = [] ∧
    (tickFn (update (New 1 5 "A" "B" fun _ => 0) (.key "q")).1 (mkRat 1 20)
      allSpawnRand).1.phaseElapsed = mkRat 1 20 ∧
    (tickFn (update (New 1 5 "A" "B" fun _ => 0) (.key "q")).1 (mkRat 1 20)
      allSpawnRand).1.columns.length = 1 := by
  have hph : (update (New 1 5 "A" "B" fun _ => 0) (.key "q")).1.phase = Phase.done := by
    decide
  have hdt : (if mkRat 1 10 < mkRat 1 20 then mkRat 1 10 else mkRat 1 20) = mkRat 1 20 :=
    if_neg (by decide)
  refine ⟨hph, by decide, rfl, ?_, by decide⟩
  show (tickCore (update (New 1 5 "A" "B" fun _ => 0) (.key "q")).1
      (if mkRat 1 10 < mkRat 1 20 then mkRat 1 10 else mkRat 1 20)
      allSpawnRand).1.phaseElapsed = mkRat 1 20
  rw [hdt, tickCore_done_eq _ _ _ hph]
  dsimp only
  rw [preTick_phaseElapsed,
    show (update (New 1 5 "A" "B" fun _ => 0) (.key "q")).1.phaseElapsed = 0 from by decide,
    zero_add]

/-- C2 (amended): once the phase is Done a tick schedules no further tick
and never changes the phase, the done flag, the two progress counters or
the lookup set — but it still advances the phase timer, and (as the
counterexample shows) may update, spawn and repaint rain columns. -/
theorem done_tick_keeps_core (m : Model) (dtRaw : ℚ) (r : TickRand)
    (h : m.phase = Phase.done) :
    (tickFn m dtRaw r).1.phase = Phase.done ∧ (tickFn m dtRaw r).1.done = true ∧
    (tickFn m dtRaw r).1.dissolvedCount = m.dissolvedCount ∧
    (tickFn m dtRaw r).1.depositedCount = m.depositedCount ∧
    (tickFn m dtRaw r).1.splashLookup = m.splashLookup ∧
    (tickFn m dtRaw r).2 = Cmd.idle := by
  unfold tickFn
  rw [tickCore_done_eq _ _ _ h]
  dsimp only
  refine ⟨?_, rfl, ?_, ?_, ?_, rfl⟩
  · rw [preTick_phase]
    exact h
  · exact preTick_dissolvedCount _ _ _
  · exact preTick_depositedCount _ _ _
  · exact preTick_splashLookup _ _ _

/-- Witness for C2's amended theorem at the Done state `skipModel`. -/
theorem done_tick_keeps_core_witness :
    skipModel.phase = Phase.done ∧
    ((tickFn skipModel (mkRat 1 20) noSpawnRand).1.phase = Phase.done ∧
     (tickFn skipModel (mkRat 1 20) noSpawnRand).1.done = true ∧
     (tickFn skipModel (mkRat 1 20) noSpawnRand).1.dissolvedCount =
       skipModel.dissolvedCount ∧
     (tickFn skipModel (mkRat 1 20) noSpawnRand).1.depositedCount =
       skipModel.depositedCount ∧
     (tickFn skipModel (mkRat 1 20) noSpawnRand).1.splashLookup =
       skipModel.splashLookup ∧
     (tickFn skipModel (mkRat 1 20) noSpawnRand).2 = Cmd.idle) :=
  ⟨by decide, done_tick_keeps_core skipModel (mkRat 1 20) noSpawnRand (by decide)⟩

/-- C4 counterexample: the controller built with zero-length source and
target text (and zero dimensions) is not Done after two ticks — the
second tick only reaches phase Drain. -/
theorem zero_text_two_ticks_not_done_cex :
    (runTicks (New 0 0 "" "" fun _ => 0)
      [(mkRat 1 30, noSpawnRand), (mkRat 1 30, noSpawnRand)]).done = false ∧
    (runTicks (New 0 0 "" "" fun _ => 0)
      [(mkRat 1 30, noSpawnRand), (mkRat 1 30, noSpawnRand)]).phase = Phase.drain := by
  exact ⟨by decide, by decide⟩

/-- Helper: a tick never changes the width. -/
theorem preTick_columns_nil (m : Model) (dt : ℚ) (r : TickRand)
    (hc : m.columns = []) (h : m.width = 0 ∨ m.draining = true) :
    (preTick m dt r).columns = [] := by
  simp only [preTick]
  split
  · simp [applyRainToGrid, removeDeadColumns, updateColumns, hc, List.mapIdx_nil]
  · rename_i hdr
    rcases h with h | h
    · simp [applyRainToGrid, spawnColumns, removeDeadColumns, updateColumns, hc,
        List.mapIdx_nil, h]
    · exact absurd h hdr

/-- Helper: reveal with no menu cells is the identity. -/
theorem reveal_nil (m : Model) (hm : m.menuCells = []) : reveal m = m := by
  unfold reveal
  rw [if_pos (by rw [hm]; rfl)]

/-- Helper: the tick taken in phase Dissolve when the source-cell list is
empty — the dissolved total (zero) is reached at once and the phase
becomes Reveal. -/
theorem tick_dissolve_empty (m : Model) (dtRaw : ℚ) (r : TickRand)
    (hph : m.phase = Phase.dissolve) (hs : m.splashCells = []) :
    (tickFn m dtRaw r).1 =
      { dissolve (preTick m (if mkRat 1 10 < dtRaw then mkRat 1 10 else dtRaw) r) with
        phase := Phase.reveal, phaseElapsed := 0 } := by
  unfold tickFn
  rw [tickCore_dissolve_eq _ _ _ hph]
  dsimp only
  rw [if_pos]
  have e : (dissolve (preTick m (if mkRat 1 10 < dtRaw then mkRat 1 10 else dtRaw)
      r)).splashCells = [] := (preTick_splashCells _ _ _).trans hs
  rw [e]
  simp

/-- Helper: the tick taken in phase Reveal when the target-cell list is
empty — the deposited total (zero) is reached at once, the phase becomes
Drain and the global drain flag is set. -/
theorem tick_reveal_empty (m : Model) (dtRaw : ℚ) (r : TickRand)
    (hph : m.phase = Phase.reveal) (hm : m.menuCells = []) :
    (tickFn m dtRaw r).1 =
      { preTick m (if mkRat 1 10 < dtRaw then mkRat 1 10 else dtRaw) r with
        phase := Phase.drain, draining := true, phaseElapsed := 0 } := by
  unfold tickFn
  rw [tickCore_reveal_eq _ _ _ hph]
  dsimp only
  have hm' : (preTick m (if mkRat 1 10 < dtRaw then mkRat 1 10 else dtRaw)
      r).menuCells = [] := (preTick_menuCells _ _ _).trans hm
  rw [reveal_nil _ hm']
  rw [if_pos (by rw [hm']; exact Nat.zero_le _)]

/-- Helper: the tick taken in phase Drain once the live column set is
empty — the phase becomes Done and the completion flag is set. -/
theorem tick_drain_done (m : Model) (dtRaw : ℚ) (r : TickRand)
    (hph : m.phase = Phase.drain)
    (hc : (preTick m (if mkRat 1 10 < dtRaw then mkRat 1 10 else dtRaw) r).columns = []) :
    (tickFn m dtRaw r).1 =
      { preTick m (if mkRat 1 10 < dtRaw then mkRat 1 10 else dtRaw) r with
        phase := Phase.done, done := true } := by
  unfold tickFn
  rw [tickCore_drain_eq _ _ _ hph]
  dsimp only
  rw [if_pos (by rw [hc]; rfl)]

/-- Helper: runTicks on the empty tick list. -/
theorem runTicks_nil (m : Model) : runTicks m [] = m := rfl

/-- Helper: runTicks peels one tick off the front. -/
theorem runTicks_cons (m : Model) (t : ℚ × TickRand) (ts : List (ℚ × TickRand)) :
    runTicks m (t :: ts) = runTicks (tickFn m t.1 t.2).1 ts := rfl

set_option maxHeartbeats 1600000 in
/-- C4 (amended): a controller built with zero-length source and target
text enters Reveal on the first tick and Drain on the second; it reaches
Done on the first subsequent tick with no live columns — with zero width
(so that no column can ever spawn) that is exactly the third tick, with
no residual live columns at completion. -/
theorem zero_text_done_on_third_tick (h : ℕ) (shuf : ℕ → ℕ)
    (t1 t2 t3 : ℚ × TickRand) :
    (runTicks (New 0 h "" "" shuf) [t1]).phase = Phase.reveal ∧
    (runTicks (New 0 h "" "" shuf) [t1]).done = false ∧
    (runTicks (New 0 h "" "" shuf) [t1, t2]).phase = Phase.drain ∧
    (runTicks (New 0 h "" "" shuf) [t1, t2]).done = false ∧
    (runTicks (New 0 h "" "" shuf) [t1, t2, t3]).phase = Phase.done ∧
    (runTicks (New 0 h "" "" shuf) [t1, t2, t3]).done = true ∧
    (runTicks (New 0 h "" "" shuf) [t1, t2, t3]).columns = [] := by
  simp only [runTicks_cons, runTicks_nil]
  have h0p : (New 0 h "" "" shuf).phase = Phase.dissolve := rfl
  have h0s : (New 0 h "" "" shuf).splashCells = [] := rfl
  have h0m : (New 0 h "" "" shuf).menuCells = [] := rfl
  have h0c : (New 0 h "" "" shuf).columns = [] := rfl
  have h0w : (New 0 h "" "" shuf).width = 0 := rfl
  have h0dr : (New 0 h "" "" shuf).draining = false := rfl
  have h0dn : (New 0 h "" "" shuf).done = false := rfl
  have hm1 := tick_dissolve_empty (New 0 h "" "" shuf) t1.1 t1.2 h0p h0s
  have h1p : (tickFn (New 0 h "" "" shuf) t1.1 t1.2).1.phase = Phase.reveal := by
    rw [hm1]
  have h1m : (tickFn (New 0 h "" "" shuf) t1.1 t1.2).1.menuCells = [] := by
    rw [hm1]
    exact (preTick_menuCells _ _ _).trans h0m
  have h1c : (tickFn (New 0 h "" "" shuf) t1.1 t1.2).1.columns = [] := by
    rw [hm1]
    exact preTick_columns_nil _ _ _ h0c (Or.inl h0w)
  have h1w : (tickFn (New 0 h "" "" shuf) t1.1 t1.2).1.width = 0 := by
    rw [hm1]
    exact (preTick_width _ _ _).trans h0w
  have h1dn : (tickFn (New 0 h "" "" shuf) t1.1 t1.2).1.done = false := by
    rw [hm1]
    exact (preTick_done _ _ _).trans h0dn
  have hm2 := tick_reveal_empty (tickFn (New 0 h "" "" shuf) t1.1 t1.2).1 t2.1 t2.2 h1p h1m
  have h2p : (tickFn (tickFn (New 0 h "" "" shuf) t1.1 t1.2).1 t2.1 t2.2).1.phase =
      Phase.drain := by
    rw [hm2]
  have h2dr : (tickFn (tickFn (New 0 h "" "" shuf) t1.1 t1.2).1 t2.1 t2.2).1.draining =
      true := by
    rw [hm2]
  have h2c : (tickFn (tickFn (New 0 h "" "" shuf) t1.1 t1.2).1 t2.1 t2.2).1.columns =
      [] := by
    rw [hm2]
    exact preTick_columns_nil _ _ _ h1c (Or.inl h1w)
  have h2dn : (tickFn (tickFn (New 0 h "" "" shuf) t1.1 t1.2).1 t2.1 t2.2).1.done =
      false := by
    rw [hm2]
    exact (preTick_done _ _ _).trans h1dn
  have hc3 : (preTick (tickFn (tickFn (New 0 h "" "" shuf) t1.1 t1.2).1 t2.1 t2.2).1
      (if mkRat 1 10 < t3.1 then mkRat 1 10 else t3.1) t3.2).columns = [] :=
    preTick_columns_nil _ _ _ h2c (Or.inr h2dr)
  have hm3 := tick_drain_done (tickFn (tickFn (New 0 h "" "" shuf) t1.1 t1.2).1
    t2.1 t2.2).1 t3.1 t3.2 h2p hc3
  refine ⟨h1p, h1dn, h2p, h2dn, ?_, ?_, ?_⟩
  · exact (congrArg Model.phase hm3).trans rfl
  · exact (congrArg Model.done hm3).trans rfl
  · exact (congrArg Model.columns hm3).trans hc3

/-- C3 (code bug): with zero height (and any height up to 3) and positive
width, a spawn trial that fires calls `rand.IntN(maxTrail-minTrail+1)`
with a non-positive argument — at height 0 the argument is 0-4+1 = -3 —
which panics in Go; so "degenerate construction inputs never panic on any
tick" fails on the code.  The checked spawn surfaces the panic as `none`:
on the very first tick of a 1×0 controller whose single spawn trial
fires, the spawn pipeline reaches the panicking call. -/
theorem degenerate_height_spawn_panics (r : TickRand) (rr : ℕ → ℕ)
    (hroll : r.spawnRoll 0 < SpawnRate) :
    SpawnColumnChecked 0 0 (r.spawnR1 0) (r.spawnR2 0) (r.spawnSpeed 0) = none ∧
    spawnColumnsChecked (New 1 0 "" "" rr) r = none := by
  have hA : ∀ r1 r2 : ℕ, ∀ rs : ℚ, SpawnColumnChecked 0 0 r1 r2 rs = none := by
    intro r1 r2 rs
    simp [SpawnColumnChecked, randIntN?]
  refine ⟨hA _ _ _, ?_⟩
  have hw : (New 1 0 "" "" rr).width = 1 := rfl
  have hh : (New 1 0 "" "" rr).height = 0 := rfl
  have hc : (New 1 0 "" "" rr).columns = [] := rfl
  unfold spawnColumnsChecked
  rw [hw, hh, hc]
  rw [show List.range 1 = [0] from rfl]
  simp [hroll, hA]

/-- Witness for C3's theorem: the all-fire draw sequence at width 1,
height 0. -/
theorem degenerate_height_spawn_panics_witness :
    allSpawnRand.spawnRoll 0 < SpawnRate ∧
    (SpawnColumnChecked 0 0 (allSpawnRand.spawnR1 0) (allSpawnRand.spawnR2 0)
        (allSpawnRand.spawnSpeed 0) = none ∧
     spawnColumnsChecked (New 1 0 "" "" fun _ => 0) allSpawnRand = none) :=
  ⟨by decide, degenerate_height_spawn_panics allSpawnRand (fun _ => 0) (by decide)⟩

/-- Helper: the drain loop only drops oldest entries from the trail. -/
theorem drainGo_trail_drop (acc : ℚ) (tr : List TrailChar) (c : Column) :
    ∃ k : ℕ, (Column.drain.drainGo acc tr c).trail = tr.drop k := by
  induction tr generalizing acc with
  | nil => exact ⟨0, rfl⟩
  | cons tc rest ih =>
      unfold Column.drain.drainGo
      split
      · obtain ⟨k, hk⟩ := ih (acc - 1)
        exact ⟨k + 1, hk⟩
      · exact ⟨0, rfl⟩

/-- Helper: advance with less than one accumulated step is the identity. -/
theorem advance_of_low_acc (c : Column) (h : ℕ) (g : ℕ → Char) (n : ℕ)
    (hlt : ¬ (1 : ℚ) ≤ c.accumulator) : Column.advance c h g n = c := by
  unfold Column.advance
  rw [dif_neg hlt]

/-- Helper: trimming a trail within its bound is the identity. -/
theorem trimTrail_of_short (c : Column)
    (hle : ¬ c.maxTrailLen < c.trail.length) : c.trimTrail = c := by
  unfold Column.trimTrail
  rw [if_neg hle]

/-- C9 counterexample: a draining column's update ignores mutation — under
a draw sequence on which every mutation trial fires (roll 0, rate 1/50)
with replacement glyph Z, the draining column keeps its glyph A, while the
same column with the drain flag cleared has its glyph replaced by Z under
the very same draws. -/
theorem draining_update_never_mutates_cex :
    (Column.update drainColEx 0 10 (fun _ => 'Z') (fun _ => 0) (fun _ => 'Z')).trail
      = [⟨0, 'A'⟩] ∧
    (Column.update { drainColEx with draining := false } 0 10 (fun _ => 'Z')
      (fun _ => 0) (fun _ => 'Z')).trail = [⟨0, 'Z'⟩] := by
  have hn : ¬ ((1 : ℚ) ≤ (0 : ℚ) + (10 : ℚ) * 0) := by norm_num
  constructor
  · simp only [Column.update]
    rw [if_pos (show drainColEx.draining = true from rfl)]
    show (Column.drain.drainGo _ [⟨0, 'A'⟩] _).trail = [⟨0, 'A'⟩]
    unfold Column.drain.drainGo
    split
    · rename_i hcon
      exact absurd hcon hn
    · rfl
  · simp only [Column.update]
    rw [if_neg (by exact Bool.false_ne_true)]
    rw [advance_of_low_acc _ _ _ _ (by exact hn)]
    rw [trimTrail_of_short _ (by norm_num : ¬ (5 : ℕ) < 1)]
    show (Column.mutate _ _ _).trail = _
    simp only [Column.mutate]
    show List.map _ (List.enum [(⟨0, 'A'⟩ : TrailChar)]) = _
    simp only [List.enum, List.enumFrom, List.map_cons, List.map_nil]
    decide

/-- Helper: trimTrail keeps the mutation rate. -/
theorem trimTrail_mutationRate (c : Column) :
    c.trimTrail.mutationRate = c.mutationRate := by
  unfold Column.trimTrail
  split <;> rfl

/-- Helper: advance keeps x, maxTrailLen and mutationRate, and only ever
appends trail entries whose row is on screen. -/
theorem advance_spec (c : Column) (hs : ℕ) (g : ℕ → Char) (n : ℕ) :
    (Column.advance c hs g n).x = c.x ∧
    (Column.advance c hs g n).maxTrailLen = c.maxTrailLen ∧
    (Column.advance c hs g n).mutationRate = c.mutationRate ∧
    ∃ tl : List TrailChar, (Column.advance c hs g n).trail = c.trail ++ tl ∧
      ∀ tc ∈ tl, 0 ≤ tc.y ∧ tc.y < (hs : ℤ) := by
  induction c, hs, g, n using Column.advance.induct with
  | case1 c hs g n h1 y tr c3 hstop =>
      rw [Column.advance, dif_pos h1]
      simp only []
      rw [if_pos (show (hs : ℤ) ≤ goTrunc (c.headY + 1) from hstop)]
      refine ⟨rfl, rfl, rfl, ?_⟩
      by_cases hy : 0 ≤ goTrunc c.headY ∧ goTrunc c.headY < (hs : ℤ)
      · refine ⟨[⟨goTrunc c.headY, g n⟩], ?_, ?_⟩
        · show (if 0 ≤ goTrunc c.headY ∧ goTrunc c.headY < (hs : ℤ) then
              c.trail ++ [⟨goTrunc c.headY, g n⟩] else c.trail) = _
          rw [if_pos hy]
        · intro tc htc
          rw [List.mem_singleton] at htc
          subst htc
          exact hy
      · refine ⟨[], ?_, by simp⟩
        show (if 0 ≤ goTrunc c.headY ∧ goTrunc c.headY < (hs : ℤ) then
            c.trail ++ [⟨goTrunc c.headY, g n⟩] else c.trail) = c.trail ++ []
        rw [if_neg hy, List.append_nil]
  | case2 c hs g n h1 y tr c3 hnstop ih =>
      rw [Column.advance, dif_pos h1]
      simp only []
      rw [if_neg (show ¬ (hs : ℤ) ≤ goTrunc (c.headY + 1) from hnstop)]
      obtain ⟨ihx, ihm, ihr, tl, htl, hmem⟩ := ih
      by_cases hy : 0 ≤ goTrunc c.headY ∧ goTrunc c.headY < (hs : ℤ)
      · have e3 : c3.trail = c.trail ++ [⟨goTrunc c.headY, g n⟩] := by
          show (if 0 ≤ goTrunc c.headY ∧ goTrunc c.headY < (hs : ℤ) then
              c.trail ++ [⟨goTrunc c.headY, g n⟩] else c.trail) = _
          rw [if_pos hy]
        rw [e3] at htl
        refine ⟨ihx, ihm, ihr, ⟨goTrunc c.headY, g n⟩ :: tl, ?_, ?_⟩
        · show (c3.advance hs g (n + 1)).trail = _
          rw [htl, List.append_assoc]
          rfl
        · intro tc htc
          rcases List.mem_cons.mp htc with htc | htc
          · subst htc
            exact hy
          · exact hmem tc htc
      · have e3 : c3.trail = c.trail := by
          show (if 0 ≤ goTrunc c.headY ∧ goTrunc c.headY < (hs : ℤ) then
              c.trail ++ [⟨goTrunc c.headY, g n⟩] else c.trail) = _
          rw [if_neg hy]
        rw [e3] at htl
        refine ⟨ihx, ihm, ihr, tl, ?_, hmem⟩
        show (c3.advance hs g (n + 1)).trail = _
        exact htl
  | case3 c hs g n h1 =>
      rw [Column.advance, dif_neg h1]
      exact ⟨rfl, rfl, rfl, [], by simp, by simp⟩

/-- C9 (amended): mutation happens only on non-draining updates — a
draining column's update merely removes oldest trail entries (its new
trail is a tail-drop of the old one, no glyph rewritten), while a
non-draining update's final trail is the advanced-and-trimmed trail with
exactly those characters replaced whose mutation trial rolls below the
column's mutationRate. -/
theorem column_update_mutation (c : Column) (dt : ℚ) (h : ℕ)
    (g : ℕ → Char) (mr : ℕ → ℚ) (mg : ℕ → Char) :
    (c.draining = true → ∃ k : ℕ,
      (Column.update c dt h g mr mg).trail = c.trail.drop k) ∧
    (c.draining = false →
      (Column.update c dt h g mr mg).trail =
        (postAdv c dt h g).trail.enum.map fun itc =>
          if mr itc.1 < c.mutationRate then { itc.2 with ch := mg itc.1 }
          else itc.2) := by
  constructor
  · intro hdr
    simp only [Column.update]
    split
    · exact drainGo_trail_drop _ _ _
    · rename_i hcon
      exact absurd hdr hcon
  · intro hdr
    simp only [Column.update]
    split
    · rename_i hcon
      exact absurd hcon (by simp [hdr])
    · have hr : ((Column.advance
          { c with accumulator := c.accumulator + c.speed * dt } h g 0).trimTrail).mutationRate
          = c.mutationRate := by
        rw [trimTrail_mutationRate]
        exact (advance_spec _ _ _ _).2.2.1
      simp only [Column.mutate, hr]
      rfl

/-- Witness for C9's amended theorem at the concrete draining column. -/
theorem column_update_mutation_witness :
    drainColEx.draining = true ∧
    ∃ k : ℕ, (Column.update drainColEx 0 10 (fun _ => 'Z') (fun _ => 0)
      (fun _ => 'Z')).trail = drainColEx.trail.drop k :=
  ⟨rfl, (column_update_mutation drainColEx 0 10 (fun _ => 'Z') (fun _ => 0)
    (fun _ => 'Z')).1 rfl⟩

/-- Helper: rgbLe is reflexive. -/
theorem rgbLe_refl (u : RGB) : rgbLe u u :=
  ⟨le_rfl, le_rfl, le_rfl⟩

/-- Helper: rgbLe is transitive. -/
theorem rgbLe_trans {u v w : RGB} (h1 : rgbLe u v) (h2 : rgbLe v w) : rgbLe u w :=
  ⟨le_trans h1.1 h2.1, le_trans h1.2.1 h2.2.1, le_trans h1.2.2 h2.2.2⟩

/-- Helper: lerp8 stays below its left endpoint. -/
theorem lerp8_le_left (a b : ℕ) (t : ℚ) (hba : b ≤ a) (ht0 : 0 ≤ t) :
    lerp8 a b t ≤ a := by
  unfold lerp8
  have hba' : (b : ℚ) ≤ (a : ℚ) := by exact_mod_cast hba
  have hle : (a : ℚ) * (1 - t) + (b : ℚ) * t ≤ (a : ℚ) := by
    nlinarith [mul_nonneg (sub_nonneg.mpr hba') ht0]
  have h2 : ⌊(a : ℚ) * (1 - t) + (b : ℚ) * t⌋ ≤ (a : ℤ) := by
    calc ⌊(a : ℚ) * (1 - t) + (b : ℚ) * t⌋ ≤ ⌊(a : ℚ)⌋ := Int.floor_le_floor hle
    _ = (a : ℤ) := Int.floor_natCast a
  omega

/-- Helper: lerp8 stays above its right endpoint. -/
theorem lerp8_ge_right (a b : ℕ) (t : ℚ) (hba : b ≤ a) (ht1 : t ≤ 1) :
    b ≤ lerp8 a b t := by
  unfold lerp8
  have hba' : (b : ℚ) ≤ (a : ℚ) := by exact_mod_cast hba
  have hge : (b : ℚ) ≤ (a : ℚ) * (1 - t) + (b : ℚ) * t := by
    nlinarith [mul_nonneg (sub_nonneg.mpr hba') (sub_nonneg.mpr ht1)]
  have h2 : (b : ℤ) ≤ ⌊(a : ℚ) * (1 - t) + (b : ℚ) * t⌋ := by
    calc (b : ℤ) = ⌊(b : ℚ)⌋ := (Int.floor_natCast b).symm
    _ ≤ ⌊(a : ℚ) * (1 - t) + (b : ℚ) * t⌋ := Int.floor_le_floor hge
  omega

/-- Helper: lerp8 from a brighter to a dimmer value is antitone. -/
theorem lerp8_antitone (a b : ℕ) (t t' : ℚ) (hba : b ≤ a) (htt : t ≤ t') :
    lerp8 a b t' ≤ lerp8 a b t := by
  unfold lerp8
  have hba' : (b : ℚ) ≤ (a : ℚ) := by exact_mod_cast hba
  have hle : (a : ℚ) * (1 - t') + (b : ℚ) * t' ≤ (a : ℚ) * (1 - t) + (b : ℚ) * t := by
    nlinarith [mul_nonneg (sub_nonneg.mpr hba') (sub_nonneg.mpr htt)]
  have h2 := Int.floor_le_floor hle
  omega

/-- Helper: the loop finds the first stop pair for small positions. -/
theorem findSeg_seg1 (p : ℚ) (h0 : 0 < p) (h1 : p ≤ 3/20) :
    findSeg p = (⟨0, 0xDC, 0xFF, 0xDC⟩, ⟨3/20, 0x00, 0xE6, 0x32⟩) := by
  show findSegGo p [(⟨0, 0xDC, 0xFF, 0xDC⟩, ⟨3/20, 0x00, 0xE6, 0x32⟩),
    (⟨3/20, 0x00, 0xE6, 0x32⟩, ⟨1/2, 0x00, 0x96, 0x1E⟩),
    (⟨1/2, 0x00, 0x96, 0x1E⟩, ⟨1, 0x00, 0x3C, 0x0F⟩)] = _
  unfold findSegGo
  rw [if_pos ⟨le_of_lt h0, h1⟩]

/-- Helper: the loop finds the middle pair for middle positions. -/
theorem findSeg_seg2 (p : ℚ) (h0 : 3/20 < p) (h1 : p ≤ 1/2) :
    findSeg p = (⟨3/20, 0x00, 0xE6, 0x32⟩, ⟨1/2, 0x00, 0x96, 0x1E⟩) := by
  show findSegGo p [(⟨0, 0xDC, 0xFF, 0xDC⟩, ⟨3/20, 0x00, 0xE6, 0x32⟩),
    (⟨3/20, 0x00, 0xE6, 0x32⟩, ⟨1/2, 0x00, 0x96, 0x1E⟩),
    (⟨1/2, 0x00, 0x96, 0x1E⟩, ⟨1, 0x00, 0x3C, 0x0F⟩)] = _
  unfold findSegGo
  rw [if_neg (fun hx => absurd hx.2 (not_le.mpr h0))]
  unfold findSegGo
  rw [if_pos ⟨le_of_lt h0, h1⟩]

/-- Helper: the loop finds the last pair for large positions. -/
theorem findSeg_seg3 (p : ℚ) (h0 : 1/2 < p) (h1 : p ≤ 1) :
    findSeg p = (⟨1/2, 0x00, 0x96, 0x1E⟩, ⟨1, 0x00, 0x3C, 0x0F⟩) := by
  show findSegGo p [(⟨0, 0xDC, 0xFF, 0xDC⟩, ⟨3/20, 0x00, 0xE6, 0x32⟩),
    (⟨3/20, 0x00, 0xE6, 0x32⟩, ⟨1/2, 0x00, 0x96, 0x1E⟩),
    (⟨1/2, 0x00, 0x96, 0x1E⟩, ⟨1, 0x00, 0x3C, 0x0F⟩)] = _
  unfold findSegGo
  rw [if_neg (fun hx => absurd hx.2 (by norm_num; linarith))]
  unfold findSegGo
  rw [if_neg (fun hx => absurd hx.2 (not_le.mpr h0))]
  unfold findSegGo
  rw [if_pos ⟨le_of_lt h0, h1⟩]

/-- Helper: TrailColor clamps below zero to the head color. -/
theorem tc_head (p : ℚ) (h : p ≤ 0) : TrailColor p = ⟨0xDC, 0xFF, 0xDC⟩ := by
  unfold TrailColor
  rw [if_pos h]

/-- Helper: TrailColor clamps above one to the tail color. -/
theorem tc_tail (p : ℚ) (h : 1 ≤ p) : TrailColor p = ⟨0x00, 0x3C, 0x0F⟩ := by
  unfold TrailColor
  rw [if_neg (by linarith), if_pos h]

/-- Helper: TrailColor in the first segment interpolates stop 0 to 1. -/
theorem tc_seg1_eq (p : ℚ) (h0 : 0 < p) (h1 : p ≤ 3/20) :
    TrailColor p =
      ⟨lerp8 0xDC 0x00 ((p - 0) / (3/20 - 0)), lerp8 0xFF 0xE6 ((p - 0) / (3/20 - 0)),
       lerp8 0xDC 0x32 ((p - 0) / (3/20 - 0))⟩ := by
  unfold TrailColor
  rw [if_neg (not_le.mpr h0), if_neg (by norm_num; linarith)]
  simp only [findSeg_seg1 p h0 h1]
  rw [if_neg (by norm_num)]

/-- Helper: TrailColor in the second segment interpolates stop 1 to 2. -/
theorem tc_seg2_eq (p : ℚ) (h0 : 3/20 < p) (h1 : p ≤ 1/2) :
    TrailColor p =
      ⟨lerp8 0x00 0x00 ((p - 3/20) / (1/2 - 3/20)),
       lerp8 0xE6 0x96 ((p - 3/20) / (1/2 - 3/20)),
       lerp8 0x32 0x1E ((p - 3/20) / (1/2 - 3/20))⟩ := by
  unfold TrailColor
  rw [if_neg (by norm_num; linarith), if_neg (by norm_num; linarith)]
  simp only [findSeg_seg2 p h0 h1]
  rw [if_neg (by norm_num)]

/-- Helper: TrailColor in the third segment interpolates stop 2 to 3. -/
theorem tc_seg3_eq (p : ℚ) (h0 : 1/2 < p) (h1 : p < 1) :
    TrailColor p =
      ⟨lerp8 0x00 0x00 ((p - 1/2) / (1 - 1/2)), lerp8 0x96 0x3C ((p - 1/2) / (1 - 1/2)),
       lerp8 0x1E 0x0F ((p - 1/2) / (1 - 1/2))⟩ := by
  unfold TrailColor
  rw [if_neg (by norm_num; linarith), if_neg (not_le.mpr h1)]
  simp only [findSeg_seg3 p h0 (le_of_lt h1)]
  rw [if_neg (by norm_num)]

/-- Helper: first-segment colors sit below the head stop. -/
theorem tc_upper_seg1 (p : ℚ) (h0 : 0 < p) (h1 : p ≤ 3/20) :
    rgbLe (TrailColor p) ⟨0xDC, 0xFF, 0xDC⟩ := by
  rw [tc_seg1_eq p h0 h1]
  have ht0 : 0 ≤ (p - 0) / (3/20 - 0) := div_nonneg (by linarith) (by norm_num)
  exact ⟨lerp8_le_left _ _ _ (by norm_num) ht0, lerp8_le_left _ _ _ (by norm_num) ht0,
    lerp8_le_left _ _ _ (by norm_num) ht0⟩

/-- Helper: first-segment colors sit above the second stop. -/
theorem tc_lower_seg1 (p : ℚ) (h0 : 0 < p) (h1 : p ≤ 3/20) :
    rgbLe ⟨0x00, 0xE6, 0x32⟩ (TrailColor p) := by
  rw [tc_seg1_eq p h0 h1]
  have ht1 : (p - 0) / (3/20 - 0) ≤ 1 := by
    rw [div_le_one (by norm_num)]
    linarith
  exact ⟨lerp8_ge_right _ _ _ (by norm_num) ht1, lerp8_ge_right _ _ _ (by norm_num) ht1,
    lerp8_ge_right _ _ _ (by norm_num) ht1⟩

/-- Helper: second-segment colors sit below the second stop. -/
theorem tc_upper_seg2 (p : ℚ) (h0 : 3/20 < p) (h1 : p ≤ 1/2) :
    rgbLe (TrailColor p) ⟨0x00, 0xE6, 0x32⟩ := by
  rw [tc_seg2_eq p h0 h1]
  have ht0 : 0 ≤ (p - 3/20) / (1/2 - 3/20) := div_nonneg (by linarith) (by norm_num)
  exact ⟨lerp8_le_left _ _ _ (by norm_num) ht0, lerp8_le_left _ _ _ (by norm_num) ht0,
    lerp8_le_left _ _ _ (by norm_num) ht0⟩

/-- Helper: second-segment colors sit above the third stop. -/
theorem tc_lower_seg2 (p : ℚ) (h0 : 3/20 < p) (h1 : p ≤ 1/2) :
    rgbLe ⟨0x00, 0x96, 0x1E⟩ (TrailColor p) := by
  rw [tc_seg2_eq p h0 h1]
  have ht1 : (p - 3/20) / (1/2 - 3/20) ≤ 1 := by
    rw [div_le_one (by norm_num)]
    linarith
  exact ⟨lerp8_ge_right _ _ _ (by norm_num) ht1, lerp8_ge_right _ _ _ (by norm_num) ht1,
    lerp8_ge_right _ _ _ (by norm_num) ht1⟩

/-- Helper: third-segment colors sit below the third stop. -/
theorem tc_upper_seg3 (p : ℚ) (h0 : 1/2 < p) (h1 : p < 1) :
    rgbLe (TrailColor p) ⟨0x00, 0x96, 0x1E⟩ := by
  rw [tc_seg3_eq p h0 h1]
  have ht0 : 0 ≤ (p - 1/2) / (1 - 1/2) := div_nonneg (by linarith) (by norm_num)
  exact ⟨lerp8_le_left _ _ _ (by norm_num) ht0, lerp8_le_left _ _ _ (by norm_num) ht0,
    lerp8_le_left _ _ _ (by norm_num) ht0⟩

/-- Helper: third-segment colors sit above the tail stop. -/
theorem tc_lower_seg3 (p : ℚ) (h0 : 1/2 < p) (h1 : p < 1) :
    rgbLe ⟨0x00, 0x3C, 0x0F⟩ (TrailColor p) := by
  rw [tc_seg3_eq p h0 h1]
  have ht1 : (p - 1/2) / (1 - 1/2) ≤ 1 := by
    rw [div_le_one (by norm_num)]
    linarith
  exact ⟨lerp8_ge_right _ _ _ (by norm_num) ht1, lerp8_ge_right _ _ _ (by norm_num) ht1,
    lerp8_ge_right _ _ _ (by norm_num) ht1⟩

/-- Helper: within the first segment the gradient only dims. -/
theorem tc_mono_seg1 (p q : ℚ) (hp0 : 0 < p) (hpq : p ≤ q) (hq1 : q ≤ 3/20) :
    rgbLe (TrailColor q) (TrailColor p) := by
  rw [tc_seg1_eq p hp0 (le_trans hpq hq1), tc_seg1_eq q (lt_of_lt_of_le hp0 hpq) hq1]
  have htt : (p - 0) / (3/20 - 0) ≤ (q - 0) / (3/20 - 0) := by
    apply div_le_div_of_nonneg_right (by linarith)
    norm_num
  exact ⟨lerp8_antitone _ _ _ _ (by norm_num) htt, lerp8_antitone _ _ _ _ (by norm_num) htt,
    lerp8_antitone _ _ _ _ (by norm_num) htt⟩

/-- Helper: within the second segment the gradient only dims. -/
theorem tc_mono_seg2 (p q : ℚ) (hp0 : 3/20 < p) (hpq : p ≤ q) (hq1 : q ≤ 1/2) :
    rgbLe (TrailColor q) (TrailColor p) := by
  rw [tc_seg2_eq p hp0 (le_trans hpq hq1), tc_seg2_eq q (lt_of_lt_of_le hp0 hpq) hq1]
  have htt : (p - 3/20) / (1/2 - 3/20) ≤ (q - 3/20) / (1/2 - 3/20) := by
    apply div_le_div_of_nonneg_right (by linarith)
    norm_num
  exact ⟨lerp8_antitone _ _ _ _ (by norm_num) htt, lerp8_antitone _ _ _ _ (by norm_num) htt,
    lerp8_antitone _ _ _ _ (by norm_num) htt⟩

/-- Helper: within the third segment the gradient only dims. -/
theorem tc_mono_seg3 (p q : ℚ) (hp0 : 1/2 < p) (hpq : p ≤ q) (hq1 : q < 1) :
    rgbLe (TrailColor q) (TrailColor p) := by
  rw [tc_seg3_eq p hp0 (lt_of_le_of_lt hpq hq1), tc_seg3_eq q (lt_of_lt_of_le hp0 hpq) hq1]
  have htt : (p - 1/2) / (1 - 1/2) ≤ (q - 1/2) / (1 - 1/2) := by
    apply div_le_div_of_nonneg_right (by linarith)
    norm_num
  exact ⟨lerp8_antitone _ _ _ _ (by norm_num) htt, lerp8_antitone _ _ _ _ (by norm_num) htt,
    lerp8_antitone _ _ _ _ (by norm_num) htt⟩

/-- Helper: every trail color sits below the head stop. -/
theorem tc_le_head (p : ℚ) : rgbLe (TrailColor p) ⟨0xDC, 0xFF, 0xDC⟩ := by
  rcases le_or_lt p 0 with h | h
  · rw [tc_head p h]
    exact rgbLe_refl _
  rcases le_or_lt 1 p with h1 | h1
  · rw [tc_tail p h1]
    exact ⟨by norm_num, by norm_num, by norm_num⟩
  rcases le_or_lt p (3/20) with h2 | h2
  · exact tc_upper_seg1 p h h2
  rcases le_or_lt p (1/2) with h3 | h3
  · exact rgbLe_trans (tc_upper_seg2 p h2 h3) ⟨by norm_num, by norm_num, by norm_num⟩
  · exact rgbLe_trans (tc_upper_seg3 p h3 h1) ⟨by norm_num, by norm_num, by norm_num⟩

/-- Helper: every trail color sits above the tail stop. -/
theorem tc_tail_le (p : ℚ) : rgbLe ⟨0x00, 0x3C, 0x0F⟩ (TrailColor p) := by
  rcases le_or_lt p 0 with h | h
  · rw [tc_head p h]
    exact ⟨by norm_num, by norm_num, by norm_num⟩
  rcases le_or_lt 1 p with h1 | h1
  · rw [tc_tail p h1]
    exact rgbLe_refl _
  rcases le_or_lt p (3/20) with h2 | h2
  · exact rgbLe_trans ⟨by norm_num, by norm_num, by norm_num⟩ (tc_lower_seg1 p h h2)
  rcases le_or_lt p (1/2) with h3 | h3
  · exact rgbLe_trans ⟨by norm_num, by norm_num, by norm_num⟩ (tc_lower_seg2 p h2 h3)
  · exact tc_lower_seg3 p h3 h1

/-- Helper: the trail gradient is channel-wise antitone everywhere. -/
theorem tc_mono (p q : ℚ) (hpq : p ≤ q) : rgbLe (TrailColor q) (TrailColor p) := by
  rcases le_or_lt q 0 with hq0 | hq0
  · rw [tc_head q hq0, tc_head p (le_trans hpq hq0)]
    exact rgbLe_refl _
  rcases le_or_lt 1 q with hq1 | hq1
  · rw [tc_tail q hq1]
    exact tc_tail_le p
  rcases le_or_lt p 0 with hp0 | hp0
  · rw [tc_head p hp0]
    exact tc_le_head q
  rcases le_or_lt q (3/20) with hq2 | hq2
  · exact tc_mono_seg1 p q hp0 hpq hq2
  rcases le_or_lt q (1/2) with hq3 | hq3
  · rcases le_or_lt p (3/20) with hp2 | hp2
    · exact rgbLe_trans (tc_upper_seg2 q hq2 hq3) (tc_lower_seg1 p hp0 hp2)
    · exact tc_mono_seg2 p q hp2 hpq hq3
  · rcases le_or_lt p (3/20) with hp2 | hp2
    · exact rgbLe_trans
        (rgbLe_trans (tc_upper_seg3 q hq3 hq1) ⟨by norm_num, by norm_num, by norm_num⟩)
        (tc_lower_seg1 p hp0 hp2)
    rcases le_or_lt p (1/2) with hp3 | hp3
    · exact rgbLe_trans (tc_upper_seg3 q hq3 hq1) (tc_lower_seg2 p hp2 hp3)
    · exact tc_mono_seg3 p q hp3 hpq hq1

/-- C8: TrailColor at 0 is exactly the head stop #DCFFDC and at 1 exactly
the tail stop #003C0F; out-of-range positions clamp to these endpoint
colors; and for positions p ≤ q every RGB channel of TrailColor q is at
most the corresponding channel of TrailColor p — brightness never
increases along the trail. -/
theorem trailColor_endpoints_clamp_mono (p q : ℚ) (hpq : p ≤ q) :
    TrailColor 0 = ⟨0xDC, 0xFF, 0xDC⟩ ∧ TrailColor 1 = ⟨0x00, 0x3C, 0x0F⟩ ∧
    (p ≤ 0 → TrailColor p = ⟨0xDC, 0xFF, 0xDC⟩) ∧
    (1 ≤ p → TrailColor p = ⟨0x00, 0x3C, 0x0F⟩) ∧
    (TrailColor q).r ≤ (TrailColor p).r ∧ (TrailColor q).g ≤ (TrailColor p).g ∧
    (TrailColor q).b ≤ (TrailColor p).b := by
  obtain ⟨m1, m2, m3⟩ := tc_mono p q hpq
  exact ⟨tc_head 0 le_rfl, tc_tail 1 le_rfl, tc_head p, tc_tail p, m1, m2, m3⟩

/-- Witness for C8 at the endpoint positions 0 and 1. -/
theorem trailColor_endpoints_clamp_mono_witness :
    (0 : ℚ) ≤ 1 ∧
    (TrailColor 0 = ⟨0xDC, 0xFF, 0xDC⟩ ∧ TrailColor 1 = ⟨0x00, 0x3C, 0x0F⟩ ∧
     ((0 : ℚ) ≤ 0 → TrailColor 0 = ⟨0xDC, 0xFF, 0xDC⟩) ∧
     ((1 : ℚ) ≤ 0 → TrailColor 0 = ⟨0x00, 0x3C, 0x0F⟩) ∧
     (TrailColor 1).r ≤ (TrailColor 0).r ∧ (TrailColor 1).g ≤ (TrailColor 0).g ∧
     (TrailColor 1).b ≤ (TrailColor 0).b) :=
  ⟨by norm_num, trailColor_endpoints_clamp_mono 0 1 (by norm_num)⟩

/-- Helper: the drain loop keeps the column position. -/
theorem drainGo_x (acc : ℚ) (tr : List TrailChar) (c : Column) :
    (Column.drain.drainGo acc tr c).x = c.x := by
  induction tr generalizing acc with
  | nil => rfl
  | cons tc rest ih =>
      unfold Column.drain.drainGo
      split
      · exact ih _
      · rfl

/-- Helper: drain keeps the column position. -/
theorem drain_x (c : Column) : (Column.drain c).x = c.x :=
  drainGo_x _ _ _

/-- Helper: drain only keeps entries of the old trail. -/
theorem drain_trail_subset (c : Column) :
    ∀ tc ∈ (Column.drain c).trail, tc ∈ c.trail := by
  obtain ⟨k, hk⟩ := drainGo_trail_drop c.accumulator c.trail c
  intro tc htc
  rw [show (Column.drain c).trail = c.trail.drop k from hk] at htc
  exact List.drop_subset _ _ htc

/-- Helper: mutate keeps the column position. -/
theorem mutate_x (c : Column) (mr : ℕ → ℚ) (mg : ℕ → Char) :
    (c.mutate mr mg).x = c.x := rfl

/-- Helper: trimTrail keeps the column position. -/
theorem trimTrail_x (c : Column) : c.trimTrail.x = c.x := by
  unfold Column.trimTrail
  split <;> rfl

/-- Helper: every row of a mutated trail is a row of the old trail. -/
theorem mutate_trail_y (c : Column) (mr : ℕ → ℚ) (mg : ℕ → Char) :
    ∀ tc ∈ (c.mutate mr mg).trail, ∃ tc2 ∈ c.trail, tc.y = tc2.y := by
  intro tc htc
  simp only [Column.mutate] at htc
  rw [List.mem_map] at htc
  obtain ⟨⟨i, tc2⟩, hmem, heq⟩ := htc
  refine ⟨tc2, List.snd_mem_of_mem_enum hmem, ?_⟩
  rw [← heq]
  split <;> rfl

/-- Helper: trimTrail only keeps entries of the old trail. -/
theorem trim_trail_subset (c : Column) :
    ∀ tc ∈ c.trimTrail.trail, tc ∈ c.trail := by
  unfold Column.trimTrail
  split
  · intro tc htc
    exact List.drop_subset _ _ htc
  · intro tc htc
    exact htc

/-- Helper: one column update keeps the column well-formed (on the grid,
all rows on screen). -/
theorem colUpdate_wf (w h : ℕ) (c : Column) (dt : ℚ) (g : ℕ → Char)
    (mr : ℕ → ℚ) (mg : ℕ → Char) (hwf : colWF w h c) :
    colWF w h (Column.update c dt h g mr mg) := by
  obtain ⟨hx0, hxw, htr⟩ := hwf
  simp only [Column.update]
  split
  · refine ⟨?_, ?_, ?_⟩
    · rw [drain_x]
      exact hx0
    · rw [drain_x]
      exact hxw
    · intro tc htc
      exact htr tc
        (drain_trail_subset { c with accumulator := c.accumulator + c.speed * dt } tc htc)
  · obtain ⟨hax, ham, har, tl, htl, hmem⟩ :=
      advance_spec { c with accumulator := c.accumulator + c.speed * dt } h g 0
    refine ⟨?_, ?_, ?_⟩
    · rw [mutate_x, trimTrail_x, hax]
      exact hx0
    · rw [mutate_x, trimTrail_x, hax]
      exact hxw
    · intro tc htc
      obtain ⟨tc2, htc2, hy⟩ := mutate_trail_y _ _ _ tc htc
      have htc3 := trim_trail_subset _ tc2 htc2
      rw [htl, List.mem_append] at htc3
      rcases htc3 with htc3 | htc3
      · rw [hy]
        exact htr tc2 htc3
      · rw [hy]
        exact hmem tc2 htc3

/-- Helper: updateColumns keeps every column well-formed. -/
theorem updateColumns_wf (m : Model) (dt : ℚ) (r : TickRand)
    (hwf : ∀ c ∈ m.columns, colWF m.width m.height c) :
    ∀ c ∈ (updateColumns m dt r).columns, colWF m.width m.height c := by
  intro c hc
  simp only [updateColumns, List.mapIdx_eq_enum_map] at hc
  rw [List.mem_map] at hc
  obtain ⟨⟨i, c0⟩, hmem, heq⟩ := hc
  rw [← heq]
  exact colUpdate_wf _ _ _ _ _ _ _ (hwf c0 (List.snd_mem_of_mem_enum hmem))

/-- Helper: removeDeadColumns keeps every column well-formed. -/
theorem removeDead_wf (m : Model)
    (hwf : ∀ c ∈ m.columns, colWF m.width m.height c) :
    ∀ c ∈ (removeDeadColumns m).columns, colWF m.width m.height c := by
  intro c hc
  simp only [removeDeadColumns] at hc
  exact hwf c (List.mem_of_mem_filter hc)

/-- Helper: spawned columns are well-formed. -/
theorem spawnColumns_wf (m : Model) (r : TickRand)
    (hwf : ∀ c ∈ m.columns, colWF m.width m.height c) :
    ∀ c ∈ (spawnColumns m r).columns, colWF m.width m.height c := by
  intro c hc
  simp only [spawnColumns] at hc
  rw [List.mem_append] at hc
  rcases hc with hc | hc
  · exact hwf c hc
  · rw [List.mem_filterMap] at hc
    obtain ⟨x, hx, hopt⟩ := hc
    rw [List.mem_range] at hx
    split at hopt
    · cases hopt
      refine ⟨?_, ?_, ?_⟩
      · exact Int.natCast_nonneg x
      · show (x : ℤ) < (m.width : ℤ)
        exact_mod_cast hx
      · intro tc htc
        cases htc
    · cases hopt

/-- Helper: the whole shared tick pipeline keeps every column
well-formed. -/
theorem preTick_wf (m : Model) (dt : ℚ) (r : TickRand)
    (hwf : ∀ c ∈ m.columns, colWF m.width m.height c) :
    ∀ c ∈ (preTick m dt r).columns, colWF m.width m.height c := by
  have h1 : ∀ c ∈ (updateColumns { m with phaseElapsed := m.phaseElapsed + dt } dt r).columns,
      colWF m.width m.height c :=
    updateColumns_wf { m with phaseElapsed := m.phaseElapsed + dt } dt r hwf
  have h2 : ∀ c ∈ (removeDeadColumns (updateColumns
      { m with phaseElapsed := m.phaseElapsed + dt } dt r)).columns,
      colWF m.width m.height c :=
    removeDead_wf _ h1
  simp only [preTick]
  split
  · exact h2
  · exact spawnColumns_wf _ r h2

/-- Helper: membership in the lookup set built by New from placements. -/
theorem mem_lookup_foldl (l : List CellPos) (s : Finset (ℤ × ℤ)) (p : ℤ × ℤ) :
    p ∈ l.foldl (fun s cp => insert (cp.x, cp.y) s) s ↔
      (∃ cp ∈ l, (cp.x, cp.y) = p) ∨ p ∈ s := by
  induction l generalizing s with
  | nil => simp
  | cons cp rest ih =>
      rw [List.foldl_cons, ih]
      constructor
      · rintro (⟨cp2, h1, h2⟩ | hs)
        · exact Or.inl ⟨cp2, List.mem_cons_of_mem _ h1, h2⟩
        · rw [Finset.mem_insert] at hs
          rcases hs with hs | hs
          · exact Or.inl ⟨cp, List.mem_cons_self _ _, hs.symm⟩
          · exact Or.inr hs
      · rintro (⟨cp2, h1, h2⟩ | hs)
        · rcases List.mem_cons.mp h1 with h1 | h1
          · subst h1
            exact Or.inr (Finset.mem_insert.mpr (Or.inl h2.symm))
          · exact Or.inl ⟨cp2, h1, h2⟩
        · exact Or.inr (Finset.mem_insert.mpr (Or.inr hs))

/-- Helper: the lookup set is no larger than the placement list. -/
theorem card_lookup_foldl (l : List CellPos) (s : Finset (ℤ × ℤ)) :
    (l.foldl (fun s cp => insert (cp.x, cp.y) s) s).card ≤ s.card + l.length := by
  induction l generalizing s with
  | nil => simp
  | cons cp rest ih =>
      rw [List.foldl_cons]
      have h1 := ih (insert (cp.x, cp.y) s)
      have h2 := Finset.card_insert_le (cp.x, cp.y) s
      simp only [List.length_cons]
      omega

/-- Helper: the dissolve scan over one trail keeps the dissolved-plus-
remaining total and never removes a key the trail cannot reach. -/
theorem dissolve_trail_fold (key : ℤ × ℤ) (x : ℤ) (tr : List TrailChar)
    (acc : Finset (ℤ × ℤ) × ℕ) (hne : ∀ tc ∈ tr, (x, tc.y) ≠ key)
    (hkey : key ∈ acc.1) :
    key ∈ (tr.foldl (dissolveHit x) acc).1 ∧
    (tr.foldl (dissolveHit x) acc).2 + (tr.foldl (dissolveHit x) acc).1.card =
      acc.2 + acc.1.card := by
  induction tr generalizing acc with
  | nil => exact ⟨hkey, rfl⟩
  | cons tc rest ih =>
      rw [List.foldl_cons]
      have hne' : ∀ tc2 ∈ rest, (x, tc2.y) ≠ key :=
        fun tc2 h => hne tc2 (List.mem_cons_of_mem _ h)
      by_cases hmem : (x, tc.y) ∈ acc.1
      · have hstep : dissolveHit x acc tc = (acc.1.erase (x, tc.y), acc.2 + 1) := by
          unfold dissolveHit
          rw [if_pos hmem]
        rw [hstep]
        have hkey2 : key ∈ acc.1.erase (x, tc.y) :=
          Finset.mem_erase.mpr ⟨(hne tc (List.mem_cons_self _ _)).symm, hkey⟩
        obtain ⟨ih1, ih2⟩ := ih (acc.1.erase (x, tc.y), acc.2 + 1) hne' hkey2
        refine ⟨ih1, ?_⟩
        rw [ih2]
        have hc := Finset.card_erase_of_mem hmem
        have hpos : 0 < acc.1.card := Finset.card_pos.mpr ⟨key, hkey⟩
        simp only []
        omega
      · have hstep : dissolveHit x acc tc = acc := by
          unfold dissolveHit
          rw [if_neg hmem]
        rw [hstep]
        exact ih acc hne' hkey

/-- Helper: the dissolve scan over all columns does the same. -/
theorem dissolve_cols_fold (key : ℤ × ℤ) (cols : List Column)
    (acc : Finset (ℤ × ℤ) × ℕ)
    (hne : ∀ c ∈ cols, ∀ tc ∈ c.trail, (c.x, tc.y) ≠ key) (hkey : key ∈ acc.1) :
    key ∈ (cols.foldl (fun acc col => col.trail.foldl (dissolveHit col.x) acc) acc).1 ∧
    (cols.foldl (fun acc col => col.trail.foldl (dissolveHit col.x) acc) acc).2 +
      (cols.foldl (fun acc col => col.trail.foldl (dissolveHit col.x) acc) acc).1.card =
      acc.2 + acc.1.card := by
  induction cols generalizing acc with
  | nil => exact ⟨hkey, rfl⟩
  | cons col rest ih =>
      rw [List.foldl_cons]
      obtain ⟨h1, h2⟩ := dissolve_trail_fold key col.x col.trail acc
        (hne col (List.mem_cons_self _ _)) hkey
      obtain ⟨h3, h4⟩ := ih (col.trail.foldl (dissolveHit col.x) acc)
        (fun c hc => hne c (List.mem_cons_of_mem _ hc)) h1
      exact ⟨h3, by rw [h4, h2]⟩

/-- Helper: with every column on the grid and the key off the grid,
dissolve keeps the key waiting and the dissolved-plus-remaining total. -/
theorem dissolve_stuck (key : ℤ × ℤ) (m : Model) (hkey : key ∈ m.splashLookup)
    (hoob : oobPos m.width m.height key)
    (hwf : ∀ c ∈ m.columns, colWF m.width m.height c) :
    key ∈ (dissolve m).splashLookup ∧
    (dissolve m).dissolvedCount + (dissolve m).splashLookup.card =
      m.dissolvedCount + m.splashLookup.card := by
  have hne : ∀ c ∈ m.columns, ∀ tc ∈ c.trail, (c.x, tc.y) ≠ key := by
    intro c hc tc htc heq
    obtain ⟨hx0, hxw, htr⟩ := hwf c hc
    obtain ⟨hy0, hyh⟩ := htr tc htc
    rw [← heq] at hoob
    unfold oobPos at hoob
    rcases hoob with hb | hb | hb | hb <;> simp at hb <;> omega
  have h := dissolve_cols_fold key m.columns (m.splashLookup, m.dissolvedCount) hne hkey
  exact h

/-- Helper: a tick in a stuck Dissolve state keeps the run stuck. -/
theorem stuck_inv_tick (key : ℤ × ℤ) (m : Model) (dtRaw : ℚ) (r : TickRand)
    (hinv : StuckInv key m) : StuckInv key (tickFn m dtRaw r).1 := by
  obtain ⟨hph, hkey, hoob, hwf, hsum⟩ := hinv
  unfold tickFn
  generalize (if mkRat 1 10 < dtRaw then mkRat 1 10 else dtRaw) = dt
  rw [tickCore_dissolve_eq m dt r hph]
  dsimp only
  have hkey1 : key ∈ (preTick m dt r).splashLookup := by
    rw [preTick_splashLookup]
    exact hkey
  have hoob1 : oobPos (preTick m dt r).width (preTick m dt r).height key := by
    rw [preTick_width, preTick_height]
    exact hoob
  have hwf1 : ∀ c ∈ (preTick m dt r).columns,
      colWF (preTick m dt r).width (preTick m dt r).height c := by
    rw [preTick_width, preTick_height]
    exact preTick_wf m dt r hwf
  obtain ⟨hkey2, hsum2⟩ := dissolve_stuck key (preTick m dt r) hkey1 hoob1 hwf1
  have hcard : 0 < (dissolve (preTick m dt r)).splashLookup.card :=
    Finset.card_pos.mpr ⟨key, hkey2⟩
  have hpresum : (preTick m dt r).dissolvedCount + (preTick m dt r).splashLookup.card ≤
      (preTick m dt r).splashCells.length := by
    rw [preTick_dissolvedCount, preTick_splashLookup, preTick_splashCells]
    exact hsum
  have hlt : ¬ ((dissolve (preTick m dt r)).splashCells.length ≤
      (dissolve (preTick m dt r)).dissolvedCount) := by
    have e1 : (dissolve (preTick m dt r)).splashCells = (preTick m dt r).splashCells :=
      (dissolve_fields _).2.1
    rw [e1]
    omega
  rw [if_neg hlt]
  dsimp only
  refine ⟨?_, hkey2, ?_, ?_, ?_⟩
  · rw [(dissolve_fields _).1, preTick_phase]
    exact hph
  · show oobPos (dissolve (preTick m dt r)).width (dissolve (preTick m dt r)).height key
    rw [(dissolve_fields _).2.2.2.2.2.2.2.2.2.1, (dissolve_fields _).2.2.2.2.2.2.2.2.2.2,
      preTick_width, preTick_height]
    exact hoob
  · show ∀ c ∈ (dissolve (preTick m dt r)).columns,
      colWF (dissolve (preTick m dt r)).width (dissolve (preTick m dt r)).height c
    rw [(dissolve_fields _).2.2.2.2.2.2.2.2.1, (dissolve_fields _).2.2.2.2.2.2.2.2.2.1,
      (dissolve_fields _).2.2.2.2.2.2.2.2.2.2]
    exact hwf1
  · have e1 : (dissolve (preTick m dt r)).splashCells = (preTick m dt r).splashCells :=
      (dissolve_fields _).2.1
    show (dissolve (preTick m dt r)).dissolvedCount +
        (dissolve (preTick m dt r)).splashLookup.card ≤
        (dissolve (preTick m dt r)).splashCells.length
    rw [e1]
    omega

/-- Helper: a stuck Dissolve state stays stuck under any tick run. -/
theorem stuck_inv_run (key : ℤ × ℤ) (m : Model) (ticks : List (ℚ × TickRand))
    (hinv : StuckInv key m) : StuckInv key (runTicks m ticks) := by
  induction ticks generalizing m with
  | nil => exact hinv
  | cons t ts ih =>
      rw [runTicks_cons]
      exact ih _ (stuck_inv_tick key m t.1 t.2 hinv)

/-- Helper: a tick never changes the source-cell list. -/
theorem tickFn_splashCells (m : Model) (dtRaw : ℚ) (r : TickRand) :
    (tickFn m dtRaw r).1.splashCells = m.splashCells := by
  unfold tickFn
  generalize (if mkRat 1 10 < dtRaw then mkRat 1 10 else dtRaw) = dt
  cases hph : m.phase
  · rw [tickCore_dissolve_eq m dt r hph]
    dsimp only
    split
    · exact ((dissolve_fields _).2.1).trans (preTick_splashCells _ _ _)
    · exact ((dissolve_fields _).2.1).trans (preTick_splashCells _ _ _)
  · rw [tickCore_reveal_eq m dt r hph]
    dsimp only
    split
    · exact ((reveal_fields _).2.1).trans (preTick_splashCells _ _ _)
    · exact ((reveal_fields _).2.1).trans (preTick_splashCells _ _ _)
  · rw [tickCore_drain_eq m dt r hph]
    dsimp only
    split
    · exact preTick_splashCells _ _ _
    · exact preTick_splashCells _ _ _
  · rw [tickCore_done_eq m dt r hph]
    exact preTick_splashCells _ _ _

/-- Helper: a tick run never changes the source-cell list. -/
theorem runTicks_splashCells (m : Model) (ticks : List (ℚ × TickRand)) :
    (runTicks m ticks).splashCells = m.splashCells := by
  induction ticks generalizing m with
  | nil => rfl
  | cons t ts ih =>
      rw [runTicks_cons, ih, tickFn_splashCells]

/-- C10: if after construction some source placement lies outside the
grid, a run driven only by ticks never dissolves the full source total —
its phase stays Dissolve forever and the dissolved counter stays strictly
below the source-cell count, because rain trails occupy only on-screen
coordinates and so can never remove the off-grid lookup entry. -/
theorem offgrid_splash_never_dissolves (w h : ℕ) (s t : String) (shuf : ℕ → ℕ)
    (ticks : List (ℚ × TickRand))
    (hoob : ∃ cp ∈ (New w h s t shuf).splashCells, oobPos w h (cp.x, cp.y)) :
    (runTicks (New w h s t shuf) ticks).phase = Phase.dissolve ∧
    (runTicks (New w h s t shuf) ticks).dissolvedCount <
      (New w h s t shuf).splashCells.length := by
  obtain ⟨cp, hcp, hoobcp⟩ := hoob
  have hinit : StuckInv (cp.x, cp.y) (New w h s t shuf) := by
    refine ⟨rfl, ?_, hoobcp, ?_, ?_⟩
    · exact (mem_lookup_foldl (computePositions s w h) ∅ (cp.x, cp.y)).mpr
        (Or.inl ⟨cp, hcp, rfl⟩)
    · intro c hc
      exact absurd hc (List.not_mem_nil c)
    · have hle := card_lookup_foldl (computePositions s w h) ∅
      rw [Finset.card_empty] at hle
      show 0 + ((computePositions s w h).foldl
          (fun (s2 : Finset (ℤ × ℤ)) (cp : CellPos) => insert (cp.x, cp.y) s2) ∅).card ≤
        (computePositions s w h).length
      omega
  have hfin := stuck_inv_run (cp.x, cp.y) (New w h s t shuf) ticks hinit
  obtain ⟨hph, hkey, _, _, hsum⟩ := hfin
  have hcard : 0 < (runTicks (New w h s t shuf) ticks).splashLookup.card :=
    Finset.card_pos.mpr ⟨_, hkey⟩
  have hcells := runTicks_splashCells (New w h s t shuf) ticks
  refine ⟨hph, ?_⟩
  rw [← hcells]
  omega

/-- Witness for C10: a 1×1 grid with the two-glyph source text AB — the
placement of B lands at x = 1, outside the single-column grid. -/
theorem offgrid_splash_never_dissolves_witness :
    (∃ cp ∈ (New 1 1 "AB" "" fun _ => 0).splashCells,
      oobPos 1 1 (cp.x, cp.y)) ∧
    ((runTicks (New 1 1 "AB" "" fun _ => 0) [(mkRat 1 30, noSpawnRand)]).phase =
      Phase.dissolve ∧
     (runTicks (New 1 1 "AB" "" fun _ => 0) [(mkRat 1 30, noSpawnRand)]).dissolvedCount <
      (New 1 1 "AB" "" fun _ => 0).splashCells.length) :=
  ⟨⟨⟨1, 0, 'B'⟩, by decide, Or.inr (Or.inl (by decide))⟩,
   offgrid_splash_never_dissolves 1 1 "AB" "" (fun _ => 0) [(mkRat 1 30, noSpawnRand)]
     ⟨⟨1, 0, 'B'⟩, by decide, Or.inr (Or.inl (by decide))⟩⟩

/-- Helper: getD into a mapped range list picks the mapped element. -/
theorem getD_map_range {β : Type} (k : ℕ) (F : ℕ → β) (n : ℕ) (d : β) (hn : n < k) :
    ((List.range k).map F).getD n d = F n := by
  rw [List.getD_eq_getElem?_getD, List.getElem?_map, List.getElem?_range hn]
  rfl

/-- Helper: getD into a replicate list in range picks the element. -/
theorem getD_replicate_lt {α : Type} (k : ℕ) (a : α) (n : ℕ) (d : α) (hn : n < k) :
    (List.replicate k a).getD n d = a := by
  rw [List.getD_eq_getElem?_getD, List.getElem?_replicate, if_pos hn]
  rfl

/-- Helper: getD into a replicate list out of range is the default. -/
theorem getD_replicate_ge {α : Type} (k : ℕ) (a : α) (n : ℕ) (d : α) (hn : ¬n < k) :
    (List.replicate k a).getD n d = d := by
  rw [List.getD_eq_getElem?_getD, List.getElem?_replicate, if_neg hn]
  rfl

/-- Helper: reading through a row-wise map with a default-preserving
function commutes with the double getD access. -/
theorem getD_map_map (l : List (List Cell)) (n m : ℕ) (f : Cell → Cell)
    (hf : f default = default) :
    ((l.map fun r => r.map f).getD n []).getD m default = f ((l.getD n []).getD m default) := by
  rw [List.getD_eq_getElem?_getD (l.map fun r => r.map f) n, List.getElem?_map,
    List.getD_eq_getElem?_getD l n]
  rcases hln : l[n]? with _ | r
  · simp [hf]
  · show (r.map f).getD m default = f (r.getD m default)
    rw [List.getD_eq_getElem?_getD (r.map f) m, List.getElem?_map,
      List.getD_eq_getElem?_getD r m]
    rcases hrm : r[m]? with _ | c
    · simp [hf]
    · rfl

/-- Helper: Set at one coordinate does not change Get at another. -/
theorem grid_get_set_ne (g : CellGrid) (x y : ℤ) (c : Cell) (x' y' : ℤ)
    (hne : ¬(x' = x ∧ y' = y)) : (g.set x y c).get x' y' = g.get x' y' := by
  unfold CellGrid.set
  split
  · rfl
  · rename_i hb
    push_neg at hb
    obtain ⟨hx0, hxw, hy0, hyh⟩ := hb
    unfold CellGrid.get
    dsimp only
    by_cases hoob : x' < 0 ∨ (g.width : ℤ) ≤ x' ∨ y' < 0 ∨ (g.height : ℤ) ≤ y'
    · rw [if_pos hoob, if_pos hoob]
    · rw [if_neg hoob, if_neg hoob]
      push_neg at hoob
      obtain ⟨hx'0, hx'w, hy'0, hy'h⟩ := hoob
      by_cases hyy : y'.toNat = y.toNat
      · have hyeq : y' = y := by omega
        have hxne : x' ≠ x := fun hxeq => hne ⟨hxeq, hyeq⟩
        have hxx : x.toNat ≠ x'.toNat := by omega
        rw [hyy]
        by_cases hylen : y.toNat < g.cells.length
        · rw [List.getD_eq_getElem?_getD
              (g.cells.set y.toNat ((g.cells.getD y.toNat []).set x.toNat c)) y.toNat,
            List.getElem?_set_self hylen, Option.getD_some,
            List.getD_eq_getElem?_getD ((g.cells.getD y.toNat []).set x.toNat c) x'.toNat,
            List.getElem?_set_ne hxx,
            ← List.getD_eq_getElem?_getD (g.cells.getD y.toNat []) x'.toNat]
        · rw [List.set_eq_of_length_le (le_of_not_lt hylen)]
      · rw [List.getD_eq_getElem?_getD
            (g.cells.set y.toNat ((g.cells.getD y.toNat []).set x.toNat c)) y'.toNat,
          List.getElem?_set_ne (fun h => hyy h.symm),
          ← List.getD_eq_getElem?_getD g.cells y'.toNat]

/-- Helper: Get after Set returns either the old cell or the written one. -/
theorem grid_get_set_cases (g : CellGrid) (x y : ℤ) (c : Cell) (x' y' : ℤ) :
    (g.set x y c).get x' y' = g.get x' y' ∨ (g.set x y c).get x' y' = c := by
  by_cases hne : x' = x ∧ y' = y
  · obtain ⟨rfl, rfl⟩ := hne
    unfold CellGrid.set
    split
    · exact Or.inl rfl
    · rename_i hb
      unfold CellGrid.get
      dsimp only
      rw [if_neg hb, if_neg hb]
      by_cases hylen : y'.toNat < g.cells.length
      · rw [List.getD_eq_getElem?_getD
            (g.cells.set y'.toNat ((g.cells.getD y'.toNat []).set x'.toNat c)) y'.toNat,
          List.getElem?_set_self hylen, Option.getD_some]
        by_cases hxlen : x'.toNat < (g.cells.getD y'.toNat []).length
        · rw [List.getD_eq_getElem?_getD ((g.cells.getD y'.toNat []).set x'.toNat c) x'.toNat,
            List.getElem?_set_self hxlen, Option.getD_some]
          exact Or.inr rfl
        · rw [List.set_eq_of_length_le (le_of_not_lt hxlen)]
          exact Or.inl rfl
      · rw [List.set_eq_of_length_le (le_of_not_lt hylen)]
        exact Or.inl rfl
  · exact Or.inl (grid_get_set_ne g x y c x' y' hne)

/-- Helper: the clearing pass reads through to the cleared old cell. -/
theorem clearRainCells_get (g : CellGrid) (x y : ℤ) :
    (clearRainCells g).get x y = clearRainCell (g.get x y) := by
  unfold clearRainCells CellGrid.get
  dsimp only
  by_cases hoob : x < 0 ∨ (g.width : ℤ) ≤ x ∨ y < 0 ∨ (g.height : ℤ) ≤ y
  · rw [if_pos hoob, if_pos hoob]
    rfl
  · rw [if_neg hoob, if_neg hoob]
    exact getD_map_map g.cells y.toNat x.toNat clearRainCell rfl

/-- Helper: a fresh grid is default everywhere. -/
theorem get_newCellGrid (w h : ℕ) (x y : ℤ) : (NewCellGrid w h).get x y = default := by
  unfold NewCellGrid CellGrid.get allocCells
  dsimp only
  split
  · rfl
  · by_cases hy : y.toNat < h
    · rw [getD_replicate_lt h _ y.toNat [] hy]
      by_cases hx : x.toNat < w
      · rw [getD_replicate_lt w _ x.toNat default hx]
      · rw [getD_replicate_ge w _ x.toNat default hx]
    · rw [getD_replicate_ge h _ y.toNat [] hy]
      rfl

/-- Helper: after a resize every cell reads as its old value or default. -/
theorem resize_get_cases (g : CellGrid) (w h : ℕ) (x y : ℤ) :
    (g.resize w h).get x y = g.get x y ∨ (g.resize w h).get x y = default := by
  unfold CellGrid.resize CellGrid.get
  dsimp only
  by_cases hoob : x < 0 ∨ ((w : ℕ) : ℤ) ≤ x ∨ y < 0 ∨ ((h : ℕ) : ℤ) ≤ y
  · rw [if_pos hoob]
    exact Or.inr rfl
  · rw [if_neg hoob]
    push_neg at hoob
    obtain ⟨hx0, hxw, hy0, hyh⟩ := hoob
    have hyb : y.toNat < h := by omega
    have hxb : x.toNat < w := by omega
    rw [getD_map_range h _ y.toNat [] hyb, getD_map_range w _ x.toNat default hxb]
    split
    · have hx : ((x.toNat : ℕ) : ℤ) = x := Int.toNat_of_nonneg hx0
      have hy : ((y.toNat : ℕ) : ℤ) = y := Int.toNat_of_nonneg hy0
      rw [hx, hy]
      exact Or.inl rfl
    · exact Or.inr rfl

/-- Helper: writing one trail character does not touch a Deposited cell. -/
theorem wtc_get_dep (cx : ℤ) (tl : ℕ) (g : CellGrid) (itc : ℕ × TrailChar) (x y : ℤ)
    (h : (g.get x y).state = CellState.deposited) :
    (writeTrailChar cx tl g itc).get x y = g.get x y := by
  simp only [writeTrailChar]
  by_cases hex : (g.get cx itc.2.y).state = CellState.deposited
  · rw [if_pos hex]
  · rw [if_neg hex]
    apply grid_get_set_ne
    exact fun hc => hex (by rw [← hc.1, ← hc.2]; exact h)

/-- Helper: writing one trail character never creates a Deposited cell. -/
theorem wtc_get_nondep (cx : ℤ) (tl : ℕ) (g : CellGrid) (itc : ℕ × TrailChar) (x y : ℤ)
    (h : (g.get x y).state ≠ CellState.deposited) :
    ((writeTrailChar cx tl g itc).get x y).state ≠ CellState.deposited := by
  simp only [writeTrailChar]
  by_cases hex : (g.get cx itc.2.y).state = CellState.deposited
  · rw [if_pos hex]
    exact h
  · rw [if_neg hex]
    rcases grid_get_set_cases g cx itc.2.y
        ⟨itc.2.ch, if (g.get cx itc.2.y).state = CellState.splash then CellState.dissolving
          else CellState.rainC,
         if 1 < tl then (tl - 1 - itc.1) * 100 / (tl - 1) else 0, Char.ofNat 0⟩ x y with hc | hc
    · rw [hc]
      exact h
    · rw [hc]
      dsimp only
      split <;> simp

/-- Helper: a whole trail write does not touch a Deposited cell. -/
theorem foldl_wtc_dep (cx : ℤ) (tl : ℕ) (l : List (ℕ × TrailChar)) (g : CellGrid) (x y : ℤ)
    (h : (g.get x y).state = CellState.deposited) :
    (l.foldl (writeTrailChar cx tl) g).get x y = g.get x y := by
  induction l generalizing g with
  | nil => rfl
  | cons itc rest ih =>
      rw [List.foldl_cons]
      have h1 := wtc_get_dep cx tl g itc x y h
      have h2 : ((writeTrailChar cx tl g itc).get x y).state = CellState.deposited := by
        rw [h1]
        exact h
      rw [ih _ h2, h1]

/-- Helper: a whole trail write never creates a Deposited cell. -/
theorem foldl_wtc_nondep (cx : ℤ) (tl : ℕ) (l : List (ℕ × TrailChar)) (g : CellGrid) (x y : ℤ)
    (h : (g.get x y).state ≠ CellState.deposited) :
    ((l.foldl (writeTrailChar cx tl) g).get x y).state ≠ CellState.deposited := by
  induction l generalizing g with
  | nil => exact h
  | cons itc rest ih =>
      rw [List.foldl_cons]
      exact ih _ (wtc_get_nondep cx tl g itc x y h)

/-- Helper: painting all columns does not touch a Deposited cell. -/
theorem foldl_wc_dep (cols : List Column) (g : CellGrid) (x y : ℤ)
    (h : (g.get x y).state = CellState.deposited) :
    (cols.foldl writeColumn g).get x y = g.get x y := by
  induction cols generalizing g with
  | nil => rfl
  | cons col rest ih =>
      rw [List.foldl_cons]
      have h1 : (writeColumn g col).get x y = g.get x y :=
        foldl_wtc_dep col.x col.trail.length col.trail.enum g x y h
      have h2 : ((writeColumn g col).get x y).state = CellState.deposited := by
        rw [h1]
        exact h
      rw [ih _ h2, h1]

/-- Helper: painting all columns never creates a Deposited cell. -/
theorem foldl_wc_nondep (cols : List Column) (g : CellGrid) (x y : ℤ)
    (h : (g.get x y).state ≠ CellState.deposited) :
    ((cols.foldl writeColumn g).get x y).state ≠ CellState.deposited := by
  induction cols generalizing g with
  | nil => exact h
  | cons col rest ih =>
      rw [List.foldl_cons]
      exact ih _ (foldl_wtc_nondep col.x col.trail.length col.trail.enum g x y h)

/-- Helper: the full rain repaint leaves Deposited cells exactly as they
were. -/
theorem applyRain_get_dep (m2 : Model) (x y : ℤ)
    (h : (m2.grid.get x y).state = CellState.deposited) :
    (applyRainToGrid m2).grid.get x y = m2.grid.get x y := by
  show (m2.columns.foldl writeColumn (clearRainCells m2.grid)).get x y = m2.grid.get x y
  have hnc : ¬((m2.grid.get x y).state = CellState.rainC ∨
      (m2.grid.get x y).state = CellState.dissolving) := by
    rw [h]
    decide
  have hc : (clearRainCells m2.grid).get x y = m2.grid.get x y := by
    rw [clearRainCells_get]
    unfold clearRainCell
    rw [if_neg hnc]
  have h2 : ((clearRainCells m2.grid).get x y).state = CellState.deposited := by
    rw [hc]
    exact h
  rw [foldl_wc_dep m2.columns _ x y h2, hc]

/-- Helper: the full rain repaint never creates a Deposited cell. -/
theorem applyRain_get_nondep (m2 : Model) (x y : ℤ)
    (h : (m2.grid.get x y).state ≠ CellState.deposited) :
    ((applyRainToGrid m2).grid.get x y).state ≠ CellState.deposited := by
  show ((m2.columns.foldl writeColumn (clearRainCells m2.grid)).get x y).state ≠
    CellState.deposited
  apply foldl_wc_nondep
  rw [clearRainCells_get]
  unfold clearRainCell
  split
  · simp
  · exact h

/-- Helper: the shared tick pipeline leaves Deposited cells unchanged. -/
theorem preTick_get_dep (m : Model) (dt : ℚ) (r : TickRand) (x y : ℤ)
    (h : (m.grid.get x y).state = CellState.deposited) :
    (preTick m dt r).grid.get x y = m.grid.get x y := by
  simp only [preTick]
  split
  · exact applyRain_get_dep _ x y h
  · exact applyRain_get_dep _ x y h

/-- Helper: the shared tick pipeline never creates a Deposited cell. -/
theorem preTick_get_nondep (m : Model) (dt : ℚ) (r : TickRand) (x y : ℤ)
    (h : (m.grid.get x y).state ≠ CellState.deposited) :
    ((preTick m dt r).grid.get x y).state ≠ CellState.deposited := by
  simp only [preTick]
  split
  · exact applyRain_get_nondep _ x y h
  · exact applyRain_get_nondep _ x y h

/-- Helper: the deposit invariant transfers along field equalities. -/
theorem depositInv_of_eqs (m m' : Model) (h1 : m'.depositOrder = m.depositOrder)
    (h2 : m'.depositedCount = m.depositedCount) (h3 : m'.menuCells = m.menuCells)
    (h4 : ∀ p ∈ pendingPos m, (m'.grid.get p.1 p.2).state ≠ CellState.deposited)
    (hinv : DepositInv m) : DepositInv m' := by
  obtain ⟨i1, i2, i3, i4⟩ := hinv
  have hpi : pendingIdx m' = pendingIdx m := by
    unfold pendingIdx
    rw [h1, h2]
  have hpp : pendingPos m' = pendingPos m := by
    unfold pendingPos
    rw [hpi, h3]
  refine ⟨by rw [h1, h3]; exact i1, ?_, by rw [hpp]; exact i3, by rw [hpp]; exact h4⟩
  rw [hpi, h3]
  exact i2

/-- Helper: the reveal loop steps through depositStep. -/
theorem revealLoop_succ (k : ℕ) (m : Model) :
    revealLoop (k + 1) m =
      if m.depositedCount < m.menuCells.length then revealLoop k (depositStep m) else m := rfl

/-- Helper: one deposit step keeps the invariant and never touches a cell
that is already Deposited. -/
theorem depositStep_inv (m : Model) (hlt : m.depositedCount < m.menuCells.length)
    (hinv : DepositInv m) :
    DepositInv (depositStep m) ∧
    ∀ x y : ℤ, (m.grid.get x y).state = CellState.deposited →
      (depositStep m).grid.get x y = m.grid.get x y := by
  obtain ⟨i1, i2, i3, i4⟩ := hinv
  have hcnt : m.depositedCount < m.depositOrder.length := by
    rw [i1]
    exact hlt
  have hidx : m.depositOrder.getD m.depositedCount 0 = m.depositOrder[m.depositedCount] :=
    List.getD_eq_getElem m.depositOrder 0 hcnt
  have hdec : pendingIdx m =
      m.depositOrder.getD m.depositedCount 0 :: pendingIdx (depositStep m) := by
    show m.depositOrder.drop m.depositedCount =
      m.depositOrder.getD m.depositedCount 0 :: m.depositOrder.drop (m.depositedCount + 1)
    rw [hidx]
    exact List.drop_eq_getElem_cons hcnt
  have hppdec : pendingPos m =
      posOf (m.menuCells.getD (m.depositOrder.getD m.depositedCount 0) default) ::
        pendingPos (depositStep m) := by
    unfold pendingPos
    rw [hdec, List.map_cons]
    rfl
  have hheadmem :
      posOf (m.menuCells.getD (m.depositOrder.getD m.depositedCount 0) default) ∈
        pendingPos m := by
    rw [hppdec]
    exact List.mem_cons_self _ _
  have hheadnd := i4 _ hheadmem
  have hstep_dep : ∀ x y : ℤ, (m.grid.get x y).state = CellState.deposited →
      (depositStep m).grid.get x y = m.grid.get x y := by
    intro x y hxy
    apply grid_get_set_ne
    rintro ⟨rfl, rfl⟩
    exact hheadnd hxy
  refine ⟨⟨i1, ?_, ?_, ?_⟩, hstep_dep⟩
  · intro i hi
    have hm : i ∈ pendingIdx m := by
      rw [hdec]
      exact List.mem_cons_of_mem _ hi
    exact i2 i hm
  · have h3 := i3
    rw [hppdec] at h3
    exact (List.nodup_cons.mp h3).2
  · intro p hp
    have hpm : p ∈ pendingPos m := by
      rw [hppdec]
      exact List.mem_cons_of_mem _ hp
    have hnodup := i3
    rw [hppdec] at hnodup
    have hpne :
        p ≠ posOf (m.menuCells.getD (m.depositOrder.getD m.depositedCount 0) default) := by
      intro he
      rw [he] at hp
      exact (List.nodup_cons.mp hnodup).1 hp
    have hsame : (depositStep m).grid.get p.1 p.2 = m.grid.get p.1 p.2 := by
      apply grid_get_set_ne
      rintro ⟨h1, h2⟩
      exact hpne (Prod.ext h1 h2)
    rw [hsame]
    exact i4 p hpm

/-- Helper: the reveal loop keeps the invariant and leaves every already-
Deposited cell exactly as it was. -/
theorem revealLoop_dep_inv (k : ℕ) (m : Model) (hinv : DepositInv m) :
    DepositInv (revealLoop k m) ∧
    ∀ x y : ℤ, (m.grid.get x y).state = CellState.deposited →
      (revealLoop k m).grid.get x y = m.grid.get x y := by
  induction k generalizing m with
  | zero => exact ⟨hinv, fun _ _ _ => rfl⟩
  | succ k ih =>
      rw [revealLoop_succ]
      split
      · rename_i hlt
        obtain ⟨hinv', hdep'⟩ := depositStep_inv m hlt hinv
        obtain ⟨rinv, rdep⟩ := ih (depositStep m) hinv'
        refine ⟨rinv, ?_⟩
        intro x y hxy
        have h1 := hdep' x y hxy
        have h2 : ((depositStep m).grid.get x y).state = CellState.deposited := by
          rw [h1]
          exact hxy
        rw [rdep x y h2, h1]
      · exact ⟨hinv, fun _ _ _ => rfl⟩

/-- Helper: reveal keeps the invariant and leaves Deposited cells alone. -/
theorem reveal_dep_inv (m : Model) (hinv : DepositInv m) :
    DepositInv (reveal m) ∧
    ∀ x y : ℤ, (m.grid.get x y).state = CellState.deposited →
      (reveal m).grid.get x y = m.grid.get x y := by
  unfold reveal
  split
  · exact ⟨hinv, fun _ _ _ => rfl⟩
  · exact revealLoop_dep_inv _ m hinv

/-- Helper: the shared tick pipeline keeps the deposit invariant. -/
theorem preTick_inv (m : Model) (dt : ℚ) (r : TickRand) (hinv : DepositInv m) :
    DepositInv (preTick m dt r) := by
  refine depositInv_of_eqs m (preTick m dt r) (preTick_depositOrder m dt r)
    (preTick_depositedCount m dt r) (preTick_menuCells m dt r) ?_ hinv
  intro p hp
  exact preTick_get_nondep m dt r p.1 p.2 (hinv.2.2.2 p hp)

/-- Helper: a tick leaves every Deposited cell exactly as it was. -/
theorem tick_get_dep (m : Model) (dtRaw : ℚ) (r : TickRand) (x y : ℤ)
    (hinv : DepositInv m) (hdep : (m.grid.get x y).state = CellState.deposited) :
    (tickFn m dtRaw r).1.grid.get x y = m.grid.get x y := by
  unfold tickFn
  generalize (if mkRat 1 10 < dtRaw then mkRat 1 10 else dtRaw) = dt
  have hpre := preTick_get_dep m dt r x y hdep
  cases hph : m.phase
  · rw [tickCore_dissolve_eq m dt r hph]
    dsimp only
    split
    · show (dissolve (preTick m dt r)).grid.get x y = m.grid.get x y
      rw [(dissolve_fields _).2.2.2.1]
      exact hpre
    · show (dissolve (preTick m dt r)).grid.get x y = m.grid.get x y
      rw [(dissolve_fields _).2.2.2.1]
      exact hpre
  · rw [tickCore_reveal_eq m dt r hph]
    dsimp only
    have hinvp := preTick_inv m dt r hinv
    have hdepp : ((preTick m dt r).grid.get x y).state = CellState.deposited := by
      rw [hpre]
      exact hdep
    have hrev := (reveal_dep_inv (preTick m dt r) hinvp).2 x y hdepp
    split
    · show (reveal (preTick m dt r)).grid.get x y = m.grid.get x y
      rw [hrev]
      exact hpre
    · show (reveal (preTick m dt r)).grid.get x y = m.grid.get x y
      rw [hrev]
      exact hpre
  · rw [tickCore_drain_eq m dt r hph]
    dsimp only
    split
    · exact hpre
    · exact hpre
  · rw [tickCore_done_eq m dt r hph]
    exact hpre

/-- Helper: a tick keeps the deposit invariant. -/
theorem tick_inv (m : Model) (dtRaw : ℚ) (r : TickRand) (hinv : DepositInv m) :
    DepositInv (tickFn m dtRaw r).1 := by
  unfold tickFn
  generalize (if mkRat 1 10 < dtRaw then mkRat 1 10 else dtRaw) = dt
  have hinvp := preTick_inv m dt r hinv
  cases hph : m.phase
  · rw [tickCore_dissolve_eq m dt r hph]
    dsimp only
    have hd : ∀ p ∈ pendingPos (preTick m dt r),
        ((dissolve (preTick m dt r)).grid.get p.1 p.2).state ≠ CellState.deposited := by
      intro p hp
      rw [(dissolve_fields _).2.2.2.1]
      exact hinvp.2.2.2 p hp
    split
    · exact depositInv_of_eqs (preTick m dt r) _ (dissolve_fields _).2.2.2.2.2.1
        (dissolve_fields _).2.2.2.2.1 (dissolve_fields _).2.2.1 hd hinvp
    · exact depositInv_of_eqs (preTick m dt r) _ (dissolve_fields _).2.2.2.2.2.1
        (dissolve_fields _).2.2.2.2.1 (dissolve_fields _).2.2.1 hd hinvp
  · rw [tickCore_reveal_eq m dt r hph]
    dsimp only
    have hrev := (reveal_dep_inv (preTick m dt r) hinvp).1
    split
    · exact depositInv_of_eqs (reveal (preTick m dt r)) _ rfl rfl rfl
        (fun p hp => hrev.2.2.2 p hp) hrev
    · exact hrev
  · rw [tickCore_drain_eq m dt r hph]
    dsimp only
    split
    · exact depositInv_of_eqs (preTick m dt r) _ rfl rfl rfl
        (fun p hp => hinvp.2.2.2 p hp) hinvp
    · exact hinvp
  · rw [tickCore_done_eq m dt r hph]
    exact depositInv_of_eqs (preTick m dt r) _ rfl rfl rfl
      (fun p hp => hinvp.2.2.2 p hp) hinvp

/-- Helper: every event keeps the deposit invariant. -/
theorem update_inv (m : Model) (msg : Msg) (hinv : DepositInv m) :
    DepositInv (update m msg).1 := by
  rcases msg with s | ⟨dtRaw, r⟩ | ⟨w, h⟩
  · simp only [update]
    split
    · exact hinv
    · exact depositInv_of_eqs m _ rfl rfl rfl (fun p hp => hinv.2.2.2 p hp) hinv
  · exact tick_inv m dtRaw r hinv
  · refine depositInv_of_eqs m _ rfl rfl rfl ?_ hinv
    intro p hp
    show ((m.grid.resize w h).get p.1 p.2).state ≠ CellState.deposited
    rcases resize_get_cases m.grid w h p.1 p.2 with hc | hc
    · rw [hc]
      exact hinv.2.2.2 p hp
    · rw [hc]
      decide

/-- Helper: pulling the m-th element of a list to the front after writing
a at position m is a permutation of putting a in front. -/
theorem getD_cons_set_perm (t : List ℕ) (m : ℕ) (a : ℕ) (hm : m < t.length) :
    List.Perm (t.getD m 0 :: t.set m a) (a :: t) := by
  induction t generalizing m with
  | nil => exact absurd hm (by simp)
  | cons b t' ih =>
      cases m with
      | zero =>
          rw [List.getD_cons_zero, List.set_cons_zero]
          exact List.Perm.swap a b t'
      | succ m' =>
          rw [List.getD_cons_succ, List.set_cons_succ]
          have hm' : m' < t'.length := by
            rw [List.length_cons] at hm
            omega
          exact (List.Perm.swap b (t'.getD m' 0) (t'.set m' a)).trans
            (((ih m' hm').cons b).trans (List.Perm.swap a b t'))

/-- Helper: the Fisher-Yates swap callback is a permutation when both
indices are in range. -/
theorem swapL_perm (l : List ℕ) (i j : ℕ) (hi : i < l.length) (hj : j < l.length) :
    List.Perm (swapL l i j) l := by
  induction l generalizing i j with
  | nil => exact absurd hi (by simp)
  | cons a t ih =>
      rw [List.length_cons] at hi hj
      cases i with
      | zero =>
          cases j with
          | zero =>
              simp only [swapL, List.getD_cons_zero, List.set_cons_zero]
              exact List.Perm.refl _
          | succ j' =>
              simp only [swapL, List.getD_cons_zero, List.getD_cons_succ,
                List.set_cons_zero, List.set_cons_succ]
              exact getD_cons_set_perm t j' a (by omega)
      | succ i' =>
          cases j with
          | zero =>
              simp only [swapL, List.getD_cons_zero, List.getD_cons_succ,
                List.set_cons_succ, List.set_cons_zero]
              exact getD_cons_set_perm t i' a (by omega)
          | succ j' =>
              simp only [swapL, List.getD_cons_succ, List.set_cons_succ]
              exact List.Perm.cons a (ih i' j' (by omega) (by omega))

/-- Helper: swapL keeps the length. -/
theorem swapL_length (l : List ℕ) (i j : ℕ) : (swapL l i j).length = l.length := by
  unfold swapL
  rw [List.length_set, List.length_set]

/-- Helper: the Fisher-Yates loop is a permutation. -/
theorem shuffleAux_perm (o : ℕ → ℕ) (k : ℕ) (l : List ℕ) (hk : k < l.length) :
    List.Perm (shuffleAux o k l) l := by
  induction k generalizing l with
  | zero => exact List.Perm.refl _
  | succ k ih =>
      unfold shuffleAux
      have hj : o (k + 1) % (k + 2) < l.length := by
        have := Nat.mod_lt (o (k + 1)) (show 0 < k + 2 by omega)
        omega
      have h1 : List.Perm (swapL l (k + 1) (o (k + 1) % (k + 2))) l :=
        swapL_perm l _ _ hk hj
      have h2 : k < (swapL l (k + 1) (o (k + 1) % (k + 2))).length := by
        rw [swapL_length]
        omega
      exact (ih _ h2).trans h1

/-- Helper: shuffle is a permutation. -/
theorem shuffle_perm (o : ℕ → ℕ) (l : List ℕ) : List.Perm (shuffle o l) l := by
  cases l with
  | nil => exact List.Perm.refl _
  | cons a t =>
      unfold shuffle
      exact shuffleAux_perm o _ _ (by rw [List.length_cons]; omega)

/-- Helper: every rune has positive display width. -/
theorem runeWidth_pos (ch : Char) : 0 < runeWidth ch := by
  unfold runeWidth
  repeat' split
  all_goals norm_num

/-- Helper: cells of one parsed line sit on that line, at or right of the
running column cursor. -/
theorem lineCellsAux_mem (offX y : ℤ) (col : ℕ) (s : List Char) :
    ∀ cp ∈ lineCellsAux offX y col s, cp.y = y ∧ offX + (col : ℤ) ≤ cp.x := by
  induction s generalizing col with
  | nil =>
      intro cp hcp
      exact absurd hcp (by simp [lineCellsAux])
  | cons ch rest ih =>
      intro cp hcp
      unfold lineCellsAux at hcp
      split at hcp
      · obtain ⟨hy, hx⟩ := ih (col + runeWidth ch) cp hcp
        refine ⟨hy, ?_⟩
        have hc : ((col + runeWidth ch : ℕ) : ℤ) = (col : ℤ) + (runeWidth ch : ℤ) := by
          push_cast
          ring
        omega
      · rcases List.mem_cons.mp hcp with hcp | hcp
        · rw [hcp]
          exact ⟨rfl, le_refl _⟩
        · obtain ⟨hy, hx⟩ := ih (col + runeWidth ch) cp hcp
          refine ⟨hy, ?_⟩
          have hc : ((col + runeWidth ch : ℕ) : ℤ) = (col : ℤ) + (runeWidth ch : ℤ) := by
            push_cast
            ring
          omega

/-- Helper: within one parsed line the x coordinates strictly increase. -/
theorem lineCellsAux_pairwise (offX y : ℤ) (col : ℕ) (s : List Char) :
    List.Pairwise (fun a b : CellPos => a.x < b.x) (lineCellsAux offX y col s) := by
  induction s generalizing col with
  | nil => simp [lineCellsAux]
  | cons ch rest ih =>
      unfold lineCellsAux
      split
      · exact ih _
      · rw [List.pairwise_cons]
        refine ⟨?_, ih _⟩
        intro cp hcp
        have hx := (lineCellsAux_mem offX y (col + runeWidth ch) rest cp hcp).2
        have hw := runeWidth_pos ch
        show offX + (col : ℤ) < cp.x
        have hc : ((col + runeWidth ch : ℕ) : ℤ) = (col : ℤ) + (runeWidth ch : ℤ) := by
          push_cast
          ring
        omega

/-- Helper: the positions of one parsed line are pairwise distinct. -/
theorem lineCells_posOf_nodup (offX y : ℤ) (col : ℕ) (s : List Char) :
    ((lineCellsAux offX y col s).map posOf).Nodup :=
  List.Pairwise.map posOf
    (fun a b hab heq => absurd (congrArg Prod.fst heq) (ne_of_lt hab))
    (lineCellsAux_pairwise offX y col s)

/-- Helper: enumeration indices strictly increase. -/
theorem enumFrom_pairwise_fst {α : Type} (n : ℕ) (l : List α) :
    List.Pairwise (fun p q : ℕ × α => p.1 < q.1) (List.enumFrom n l) := by
  induction l generalizing n with
  | nil => simp
  | cons a t ih =>
      rw [List.enumFrom_cons, List.pairwise_cons]
      refine ⟨?_, ih (n + 1)⟩
      intro p hp
      obtain ⟨i, x⟩ := p
      have h1 := (List.mem_enumFrom hp).1
      show n < i
      omega

/-- Helper: the parsed text positions are pairwise distinct — lines have
distinct rows and cells within a line have distinct columns. -/
theorem computePositions_pos_nodup (t : String) (w h : ℕ) :
    ((computePositions t w h).map posOf).Nodup := by
  simp only [computePositions]
  rw [List.map_flatten, List.map_map, List.nodup_flatten]
  constructor
  · intro l hl
    obtain ⟨rl, hrl, hfl⟩ := List.mem_map.mp hl
    rw [← hfl]
    exact lineCells_posOf_nodup _ _ 0 rl.2
  · rw [List.pairwise_map]
    refine List.Pairwise.imp ?_ (enumFrom_pairwise_fst 0 (splitOnNl t.data))
    intro a b hab p hpa hpb
    obtain ⟨cpa, hcpa, hpe⟩ := List.mem_map.mp hpa
    obtain ⟨cpb, hcpb, hpe2⟩ := List.mem_map.mp hpb
    have hya := (lineCellsAux_mem _ _ 0 a.2 cpa hcpa).1
    have hyb := (lineCellsAux_mem _ _ 0 b.2 cpb hcpb).1
    have e1 : p.2 = goDiv ((h : ℤ) -
        ((splitOnNl t.data).length : ℤ)) 2 + (a.1 : ℤ) := by
      rw [← hpe]
      exact hya
    have e2 : p.2 = goDiv ((h : ℤ) -
        ((splitOnNl t.data).length : ℤ)) 2 + (b.1 : ℤ) := by
      rw [← hpe2]
      exact hyb
    omega

/-- Helper: painting splash cells never creates a Deposited cell. -/
theorem splash_fold_nondep (l : List CellPos) (g : CellGrid)
    (hg : ∀ x y : ℤ, (g.get x y).state ≠ CellState.deposited) :
    ∀ x y : ℤ,
      ((l.foldl (fun g cp => g.set cp.x cp.y ⟨cp.ch, CellState.splash, 0, Char.ofNat 0⟩) g).get
        x y).state ≠ CellState.deposited := by
  induction l generalizing g with
  | nil => exact hg
  | cons cp rest ih =>
      rw [List.foldl_cons]
      apply ih
      intro x y
      rcases grid_get_set_cases g cp.x cp.y ⟨cp.ch, CellState.splash, 0, Char.ofNat 0⟩ x y with
        hc | hc
      · rw [hc]
        exact hg x y
      · rw [hc]
        simp

/-- Helper: a fresh controller satisfies the deposit invariant. -/
theorem newModel_inv (w h : ℕ) (s t : String) (shuf : ℕ → ℕ) :
    DepositInv (New w h s t shuf) := by
  have hperm := shuffle_perm shuf (List.range (computePositions t w h).length)
  have horder : (New w h s t shuf).depositOrder =
      shuffle shuf (List.range (computePositions t w h).length) := rfl
  have hmenu : (New w h s t shuf).menuCells = computePositions t w h := rfl
  have hpi : pendingIdx (New w h s t shuf) =
      shuffle shuf (List.range (computePositions t w h).length) := by
    unfold pendingIdx
    show List.drop 0 (shuffle shuf (List.range (computePositions t w h).length)) =
      shuffle shuf (List.range (computePositions t w h).length)
    exact List.drop_zero _
  refine ⟨?_, ?_, ?_, ?_⟩
  · rw [horder, hmenu, hperm.length_eq, List.length_range]
  · intro i hi
    rw [hpi] at hi
    rw [hmenu]
    exact List.mem_range.mp (hperm.mem_iff.mp hi)
  · unfold pendingPos
    rw [hpi, hmenu]
    refine List.Nodup.map_on ?_ (hperm.nodup_iff.mpr (List.nodup_range _))
    intro i hi j hj hf
    have hi' : i < (computePositions t w h).length := List.mem_range.mp (hperm.mem_iff.mp hi)
    have hj' : j < (computePositions t w h).length := List.mem_range.mp (hperm.mem_iff.mp hj)
    rw [List.getD_eq_getElem (computePositions t w h) default hi',
      List.getD_eq_getElem (computePositions t w h) default hj'] at hf
    have hm := computePositions_pos_nodup t w h
    have hil : i < ((computePositions t w h).map posOf).length := by
      rw [List.length_map]
      exact hi'
    have hjl : j < ((computePositions t w h).map posOf).length := by
      rw [List.length_map]
      exact hj'
    have he : ((computePositions t w h).map posOf)[i] =
        ((computePositions t w h).map posOf)[j] := by
      rw [List.getElem_map, List.getElem_map]
      exact hf
    exact hm.getElem_inj_iff.mp he
  · intro p hp
    show (((computePositions s w h).foldl
        (fun g cp => g.set cp.x cp.y ⟨cp.ch, CellState.splash, 0, Char.ofNat 0⟩)
        (NewCellGrid w h)).get p.1 p.2).state ≠ CellState.deposited
    apply splash_fold_nondep
    intro x y
    rw [get_newCellGrid]
    decide

/-- Helper: every reachable state satisfies the deposit invariant. -/
theorem reachable_inv (m : Model) (h : Reachable m) : DepositInv m := by
  induction h with
  | init w h s t shuf => exact newModel_inv w h s t shuf
  | step m msg hm ih => exact update_inv m msg ih

/-- C6: in every reachable controller state, any key or tick event — i.e.
any non-resize event — leaves every grid cell whose state is Deposited
exactly as it was (state, glyph, fade step and target glyph): the rain
repaint skips Deposited cells and the reveal writer only targets
positions that are not yet Deposited.  (A resize is excluded: it can
destroy Deposited cells, see the counterexample.) -/
theorem deposited_cells_immutable (m : Model) (msg : Msg) (x y : ℤ)
    (hreach : Reachable m) (hres : msg.isResize = false)
    (hdep : (m.grid.get x y).state = CellState.deposited) :
    (update m msg).1.grid.get x y = m.grid.get x y := by
  rcases msg with s | ⟨dtRaw, r⟩ | ⟨w, h⟩
  · simp only [update]
    split
    · rfl
    · rfl
  · exact tick_get_dep m dtRaw r x y (reachable_inv m hreach) hdep
  · exact absurd hres (by simp [Msg.isResize])

/-- Witness for C6: in the reachable state depModel the cell (0,0) is
Deposited with glyph B, and a key event leaves it untouched. -/
theorem deposited_cells_immutable_witness :
    Reachable depModel ∧ (Msg.key "q").isResize = false ∧
    (depModel.grid.get 0 0).state = CellState.deposited ∧
    (update depModel (Msg.key "q")).1.grid.get 0 0 = depModel.grid.get 0 0 :=
  ⟨Reachable.step _ (Msg.tick (mkRat 1 30) noSpawnRand)
      (Reachable.step _ (Msg.tick (mkRat 1 30) noSpawnRand)
        (Reachable.init 1 1 "" "B" fun _ => 0)),
   rfl, by decide,
   deposited_cells_immutable depModel (Msg.key "q") 0 0
     (Reachable.step _ (Msg.tick (mkRat 1 30) noSpawnRand)
       (Reachable.step _ (Msg.tick (mkRat 1 30) noSpawnRand)
         (Reachable.init 1 1 "" "B" fun _ => 0)))
     rfl (by decide)⟩

/-- C6 counterexample: a resize destroys a Deposited cell — shrinking the
reachable state depModel to 0×0 and growing back to 1×1 leaves (0,0)
empty, so the claim's "every subsequent event" does not hold for resize
events. -/
theorem deposited_lost_on_resize_cex :
    Reachable depModel ∧
    (depModel.grid.get 0 0).state = CellState.deposited ∧
    ((update (update depModel (Msg.resize 0 0)).1 (Msg.resize 1 1)).1.grid.get 0 0).state =
      CellState.empty :=
  ⟨Reachable.step _ (Msg.tick (mkRat 1 30) noSpawnRand)
      (Reachable.step _ (Msg.tick (mkRat 1 30) noSpawnRand)
        (Reachable.init 1 1 "" "B" fun _ => 0)),
   by decide, by decide⟩
